import Mathlib

set_option maxHeartbeats 1000000
set_option maxRecDepth 10000

/-!
Shallow embedding of the openalgo trend-indicator kernels
(`src/openalgo/indicators/trend.py`).

Modelling choices:
- IEEE double values are embedded as rationals; a cell of an output
  array is `Option ℚ`, where `none` stands for the NaN sentinel and
  `some q` for a finite value.  Arithmetic on cells propagates `none`
  exactly as IEEE arithmetic propagates NaN.
- numpy arrays become `List` values; an element read `a[i]` becomes
  `List.getD` with a junk default that is never reachable at the
  indices the kernels actually touch.
- the numba loops are embedded as structurally recursive index
  functions (value at index `i`, recursing on `i`), and each output
  array is the range-map of its index function, which keeps every
  definition computable and decidable on concrete inputs.
- `np.exp` (ALMA) and `np.log` (FRAMA) are transcendental, so those two
  kernels are parameterized by the smooth function they apply; every
  claim about them only uses properties (positivity) that the real
  functions satisfy.
-/

/-- One float cell: `none` models IEEE NaN, `some q` a finite value. -/
abbrev OF : Type := Option ℚ

/-- NaN-propagating addition. -/
def ofAdd : OF → OF → OF
  | some a, some b => some (a + b)
  | _, _ => none

/-- NaN-propagating subtraction. -/
def ofSub : OF → OF → OF
  | some a, some b => some (a - b)
  | _, _ => none

/-- NaN-propagating multiplication. -/
def ofMul : OF → OF → OF
  | some a, some b => some (a * b)
  | _, _ => none

/-- NaN-propagating division (divisors are nonzero at every reachable call). -/
def ofDiv : OF → OF → OF
  | some a, some b => some (a / b)
  | _, _ => none

/-- Scalar times cell, as in `alpha * data[i]`. -/
def ofSMul (c : ℚ) : OF → OF
  | some a => some (c * a)
  | none => none

/-- Left-to-right sum of a run of cells, as the numba accumulation loops do. -/
def ofSum (l : List OF) : OF := l.foldl ofAdd (some 0)

/-- Element access on a float buffer (default never surfaces in-range). -/
def dAt (l : List ℚ) : ℕ → ℚ := fun i => l.getD i 0

/-- Element access on a NaN-carrying buffer. -/
def oAt (l : List OF) : ℕ → OF := fun i => l.getD i none

/-! ### SMA (`SMA._calculate_sma`) -/

/-- Rolling sum carried by the SMA loop: seeded with the sum of the first
`p` samples, then updated by `sum - data[i-p] + data[i]`.  Meaningful from
index `p-1` on (below that the source never reads it). -/
def smaSumFun (x : ℕ → ℚ) (p : ℕ) : ℕ → ℚ
  | 0 => ∑ j ∈ Finset.range p, x j
  | i + 1 =>
    if i + 1 ≤ p - 1 then ∑ j ∈ Finset.range p, x j
    else smaSumFun x p i - x (i + 1 - p) + x (i + 1)

/-- `SMA._calculate_sma`: NaN before index `p-1`, rolling mean after. -/
def smaCalc (data : List ℚ) (p : ℕ) : List OF :=
  (List.range data.length).map fun i =>
    if i + 1 < p then none else some (smaSumFun (dAt data) p i / (p : ℚ))

/-! ### EMA (`EMA._calculate_ema`) — operates on possibly-NaN buffers,
because DEMA/TEMA/ZLEMA feed EMA outputs back into it. -/

/-- Value of the EMA loop at index `i`: the SMA seed at `p-1` (and, as junk,
below it — the source never reads those slots), then
`alpha*data[i] + (1-alpha)*ema[i-1]`. -/
def emaFun (x : ℕ → OF) (p : ℕ) : ℕ → OF
  | 0 => ofDiv (ofSum ((List.range p).map x)) (some (p : ℚ))
  | i + 1 =>
    if i + 1 ≤ p - 1 then ofDiv (ofSum ((List.range p).map x)) (some (p : ℚ))
    else ofAdd (ofSMul (2 / ((p : ℚ) + 1)) (x (i + 1)))
               (ofSMul (1 - 2 / ((p : ℚ) + 1)) (emaFun x p i))

/-- `EMA._calculate_ema`: NaN before `p-1`, SMA seed at `p-1`, recurrence after. -/
def emaCalc (data : List OF) (p : ℕ) : List OF :=
  (List.range data.length).map fun i =>
    if i + 1 < p then none else emaFun (oAt data) p i

/-! ### Basic cell lemmas -/

@[simp] lemma ofAdd_none_left (b : OF) : ofAdd none b = none := by cases b <;> rfl

@[simp] lemma ofAdd_none_right (a : OF) : ofAdd a none = none := by cases a <;> rfl

@[simp] lemma ofAdd_some_some (a b : ℚ) : ofAdd (some a) (some b) = some (a + b) := rfl

@[simp] lemma ofSub_none_left (b : OF) : ofSub none b = none := by cases b <;> rfl

@[simp] lemma ofSub_none_right (a : OF) : ofSub a none = none := by cases a <;> rfl

@[simp] lemma ofSub_some_some (a b : ℚ) : ofSub (some a) (some b) = some (a - b) := rfl

@[simp] lemma ofMul_none_left (b : OF) : ofMul none b = none := by cases b <;> rfl

@[simp] lemma ofMul_none_right (a : OF) : ofMul a none = none := by cases a <;> rfl

@[simp] lemma ofMul_some_some (a b : ℚ) : ofMul (some a) (some b) = some (a * b) := rfl

@[simp] lemma ofDiv_none_left (b : OF) : ofDiv none b = none := by cases b <;> rfl

@[simp] lemma ofDiv_some_some (a b : ℚ) : ofDiv (some a) (some b) = some (a / b) := rfl

@[simp] lemma ofSMul_none (c : ℚ) : ofSMul c none = none := rfl

@[simp] lemma ofSMul_some (c a : ℚ) : ofSMul c (some a) = some (c * a) := rfl

lemma ofFold_some (l : List ℚ) : ∀ a : ℚ,
    (l.map some).foldl ofAdd (some a) = some (a + l.sum) := by
  induction l with
  | nil => intro a; simp
  | cons x xs ih =>
    intro a
    simp only [List.map_cons, List.foldl_cons, ofAdd_some_some, List.sum_cons, ih]
    ring_nf

lemma ofSum_map_some (l : List ℚ) : ofSum (l.map some) = some l.sum := by
  simpa using ofFold_some l 0

lemma ofFold_none (l : List OF) : l.foldl ofAdd none = none := by
  induction l with
  | nil => rfl
  | cons x xs ih => simpa using ih

lemma ofFold_of_mem_none (l : List OF) : ∀ a : OF, none ∈ l → l.foldl ofAdd a = none := by
  induction l with
  | nil => intro a h; cases h
  | cons x xs ih =>
    intro a h
    rcases List.mem_cons.mp h with hx | hxs
    · cases hx
      simp [ofFold_none]
    · simpa using ih _ hxs

lemma ofSum_of_mem_none {l : List OF} (h : none ∈ l) : ofSum l = none :=
  ofFold_of_mem_none l _ h

lemma listSum_range_map (f : ℕ → ℚ) (n : ℕ) :
    ((List.range n).map f).sum = ∑ j ∈ Finset.range n, f j := by
  induction n with
  | zero => simp
  | succ m ih => simp [List.range_succ, Finset.sum_range_succ, ih]

/-- Access into a range-map list. -/
lemma rangeMap_getD {α : Type} (f : ℕ → α) (n i : ℕ) (d : α) (h : i < n) :
    ((List.range n).map f).getD i d = f i := by
  rw [List.getD_eq_getElem?_getD]
  simp [List.getElem?_map, List.getElem?_range h]

lemma rangeMap_length {α : Type} (f : ℕ → α) (n : ℕ) :
    ((List.range n).map f).length = n := by simp

/-! ### WMA (`WMA._calculate_wma`) — over possibly-NaN buffers (HMA feeds
a NaN-carrying difference series back into it). -/

/-- One WMA window: `sum_j data[i-p+1+j] * (j+1)` divided by the integer
weight normalizer `p*(p+1)//2`. -/
def wmaAt (x : ℕ → OF) (p i : ℕ) : OF :=
  ofDiv (ofSum ((List.range p).map fun j => ofMul (x (i + 1 - p + j)) (some ((j : ℚ) + 1))))
        (some ((p * (p + 1) / 2 : ℕ) : ℚ))

/-- `WMA._calculate_wma`: NaN before `p-1`, weighted window mean after. -/
def wmaCalc (data : List OF) (p : ℕ) : List OF :=
  (List.range data.length).map fun i => if i + 1 < p then none else wmaAt (oAt data) p i

/-! ### Composed kernels (`DEMA`, `TEMA`, `HMA`, `ZLEMA`) -/

/-- `DEMA.calculate`: `2*EMA(data,p) - EMA(EMA(data,p),p)` elementwise. -/
def demaCalc (data : List ℚ) (p : ℕ) : List OF :=
  let e1 := emaCalc (data.map some) p
  let e2 := emaCalc e1 p
  (List.range data.length).map fun i => ofSub (ofSMul 2 (oAt e1 i)) (oAt e2 i)

/-- `TEMA.calculate`: `3*EMA1 - 3*EMA2 + EMA3` elementwise. -/
def temaCalc (data : List ℚ) (p : ℕ) : List OF :=
  let e1 := emaCalc (data.map some) p
  let e2 := emaCalc e1 p
  let e3 := emaCalc e2 p
  (List.range data.length).map fun i =>
    ofAdd (ofSub (ofSMul 3 (oAt e1 i)) (ofSMul 3 (oAt e2 i))) (oAt e3 i)

/-- `HMA.calculate`: `WMA(2*WMA(data,p/2) - WMA(data,p), floor(sqrt(p)))`. -/
def hmaCalc (data : List ℚ) (p : ℕ) : List OF :=
  let dm := data.map some
  let wh := wmaCalc dm (p / 2)
  let wf := wmaCalc dm p
  let diff := (List.range data.length).map fun i => ofSub (ofSMul 2 (oAt wh i)) (oAt wf i)
  wmaCalc diff p.sqrt

/-- `ZLEMA.calculate`: EMA of the de-lagged series
`adj[i] = 2*data[i] - data[i-lag]` (raw data below `lag`). -/
def zlemaCalc (data : List ℚ) (p : ℕ) : List OF :=
  let lag := (p - 1) / 2
  let adj := (List.range data.length).map fun i =>
    if i < lag then dAt data i else 2 * dAt data i - dAt data (i - lag)
  emaCalc (adj.map some) p

/-! ### T3 (`T3._calculate_gd`, `T3.calculate`) — the internal smoothing is
seeded with the first sample (`ema[0] = x[0]`), not with an SMA seed, and
never writes NaN, so it stays in plain rationals. -/

/-- The exponential-smoothing loop inside `_calculate_gd`:
`e[0] = x[0]`, `e[i] = alpha*x[i] + (1-alpha)*e[i-1]`. -/
def t3EmaFun (a : ℚ) (x : ℕ → ℚ) : ℕ → ℚ
  | 0 => x 0
  | i + 1 => a * x (i + 1) + (1 - a) * t3EmaFun a x i

/-- `T3._calculate_gd`: `(1+v)*ema1 - v*ema2` with `ema2` the same loop run
over `ema1` (seeded with `ema1[0]`). -/
def gdCalc (data : List ℚ) (p : ℕ) (v : ℚ) : List ℚ :=
  let a : ℚ := 2 / ((p : ℚ) + 1)
  let e1 := t3EmaFun a (dAt data)
  let e2 := t3EmaFun a e1
  (List.range data.length).map fun i => (1 + v) * e1 i - v * e2 i

/-- `T3.calculate`: three nested applications of `_calculate_gd`. -/
def t3Calc (data : List ℚ) (p : ℕ) (v : ℚ) : List ℚ :=
  gdCalc (gdCalc (gdCalc data p v) p v) p v

/-- T3's output buffer viewed as float cells: the source never assigns NaN
to it (given numeric input), so every cell is `some`. -/
def t3CalcOF (data : List ℚ) (p : ℕ) (v : ℚ) : List OF :=
  (t3Calc data p v).map some

/-! ### VWMA (`VWMA._calculate_vwma`) -/

/-- `VWMA._calculate_vwma`: windowed `price*volume` over windowed volume,
falling back to the raw price when the windowed volume sum fails `sum_v > 0`. -/
def vwmaCalc (data volume : List ℚ) (p : ℕ) : List OF :=
  (List.range data.length).map fun i =>
    if i + 1 < p then none
    else
      let sumPV := ∑ j ∈ Finset.range p, dAt data (i + 1 - p + j) * dAt volume (i + 1 - p + j)
      let sumV := ∑ j ∈ Finset.range p, dAt volume (i + 1 - p + j)
      if 0 < sumV then some (sumPV / sumV) else some (dAt data i)

/-! ### ALMA (`ALMA._calculate_alma`) — `np.exp` is transcendental, so the
kernel is parameterized by it; claims use only that it is positive. -/

/-- The raw (un-normalized) ALMA window weights
`exp(-((j-m)^2)/(2*s*s))` with `m = offset*(p-1)` and `s = p/sigma`. -/
def almaWeights (expf : ℚ → ℚ) (p : ℕ) (offset sigma : ℚ) : ℕ → ℚ :=
  fun j =>
    let m := offset * ((p : ℚ) - 1)
    let s := (p : ℚ) / sigma
    expf (-(((j : ℚ) - m) ^ 2) / (2 * s * s))

/-- `ALMA._calculate_alma`: weights normalized by their sum, then a
weighted trailing-window sum. -/
def almaCalc (expf : ℚ → ℚ) (data : List ℚ) (p : ℕ) (offset sigma : ℚ) : List OF :=
  let w := almaWeights expf p offset sigma
  let wsum := ∑ j ∈ Finset.range p, w j
  (List.range data.length).map fun i =>
    if i + 1 < p then none
    else some (∑ j ∈ Finset.range p, w j / wsum * dAt data (i + 1 - p + j))

/-! ### KAMA (`KAMA._calculate_kama`) -/

/-- One KAMA update at index `i >= p`: efficiency ratio (0 when the
volatility sum fails `> 0`), squared smoothing constant, recurrence. -/
def kamaStep (x : ℕ → ℚ) (p : ℕ) (fsc ssc : ℚ) (prev : ℚ) (i : ℕ) : ℚ :=
  let direction := |x i - x (i - p)|
  let volatility := ∑ j ∈ Finset.range p, |x (i - j) - x (i - j - 1)|
  let er := if 0 < volatility then direction / volatility else 0
  let sc := (er * (fsc - ssc) + ssc) ^ 2
  prev + sc * (x i - prev)

/-- KAMA value at index `i`: seeded with `data[p-1]` at `p-1` (slots below
are junk the source never reads), recurrence after. -/
def kamaFun (x : ℕ → ℚ) (p : ℕ) (fsc ssc : ℚ) : ℕ → ℚ
  | 0 => x (p - 1)
  | i + 1 =>
    if i + 1 ≤ p - 1 then x (p - 1)
    else kamaStep x p fsc ssc (kamaFun x p fsc ssc i) (i + 1)

/-- `KAMA._calculate_kama`: NaN before `p-1`, adaptive recurrence after. -/
def kamaCalc (data : List ℚ) (p : ℕ) (fsc ssc : ℚ) : List OF :=
  (List.range data.length).map fun i =>
    if i + 1 < p then none else some (kamaFun (dAt data) p fsc ssc i)

/-! ### Rolling window extrema (used by FRAMA and Ichimoku) -/

/-- Maximum of `f` over the window `[a, a+len)` (the init `f a` is an
element of every nonempty window, so this is the window maximum). -/
def wMax (f : ℕ → ℚ) (a len : ℕ) : ℚ := ((List.range' a len).map f).foldl max (f a)

/-- Minimum of `f` over the window `[a, a+len)`. -/
def wMin (f : ℕ → ℚ) (a len : ℕ) : ℚ := ((List.range' a len).map f).foldl min (f a)

/-! ### FRAMA (`FRAMA._calculate_frama`) — `np.log` is transcendental, so
the kernel is parameterized by it. -/

/-- One FRAMA update at index `i >= p`: fractal dimension from the two
half-windows and the whole window (1.0 when any range is zero), clamped to
`[1,2]`, driving an adjusted smoothing constant. -/
def framaStep (logf : ℚ → ℚ) (x : ℕ → ℚ) (p : ℕ) (prev : ℚ) (i : ℕ) : ℚ :=
  let n1 := p / 2
  let n2 := p - n1
  let h1 := wMax x (i + 1 - p) n1
  let l1 := wMin x (i + 1 - p) n1
  let h2 := wMax x (i + 1 - n2) n2
  let l2 := wMin x (i + 1 - n2) n2
  let h3 := wMax x (i + 1 - p) p
  let l3 := wMin x (i + 1 - p) p
  let d0 : ℚ :=
    if 0 < h1 - l1 ∧ 0 < h2 - l2 ∧ 0 < h3 - l3 then
      (logf (h1 - l1) + logf (h2 - l2) - logf (h3 - l3)) / logf 2
    else 1
  let d1 := max 1 (min 2 d0)
  let a : ℚ := 2 / ((p : ℚ) + 1)
  let w := logf (2 / a) / logf 2
  let aAdj := 2 / (w * d1 + 1)
  aAdj * x i + (1 - aAdj) * prev

/-- FRAMA value at index `i`: seeded with `data[p-1]`, recurrence after. -/
def framaFun (logf : ℚ → ℚ) (x : ℕ → ℚ) (p : ℕ) : ℕ → ℚ
  | 0 => x (p - 1)
  | i + 1 =>
    if i + 1 ≤ p - 1 then x (p - 1)
    else framaStep logf x p (framaFun logf x p i) (i + 1)

/-- `FRAMA._calculate_frama`: NaN before `p-1`, adaptive recurrence after. -/
def framaCalc (logf : ℚ → ℚ) (data : List ℚ) (p : ℕ) : List OF :=
  (List.range data.length).map fun i =>
    if i + 1 < p then none else some (framaFun logf (dAt data) p i)

/-! ### ATR helper (`_calculate_atr`) and Supertrend -/

/-- True range: `tr[0] = high[0]-low[0]`, then
`max(high-low, |high-prevclose|, |low-prevclose|)`. -/
def trFun (h l c : ℕ → ℚ) : ℕ → ℚ
  | 0 => h 0 - l 0
  | i + 1 => max (h (i + 1) - l (i + 1)) (max |h (i + 1) - c i| |l (i + 1) - c i|)

/-- ATR seed: simple mean of the first `p` true ranges. -/
def atrSeed (tr : ℕ → ℚ) (p : ℕ) : ℚ := (∑ j ∈ Finset.range p, tr j) / (p : ℚ)

/-- ATR value at index `i`: the seed at `p-1` (junk below, never read),
Wilder smoothing `(atr[i-1]*(p-1) + tr[i]) / p` after. -/
def atrFun (tr : ℕ → ℚ) (p : ℕ) : ℕ → ℚ
  | 0 => atrSeed tr p
  | i + 1 =>
    if i + 1 ≤ p - 1 then atrSeed tr p
    else (atrFun tr p i * ((p : ℚ) - 1) + tr (i + 1)) / (p : ℚ)

/-- `_calculate_atr` as a buffer: NaN before `p-1`, Wilder smoothing after. -/
def atrCalc (high low close : List ℚ) (p : ℕ) : List OF :=
  (List.range high.length).map fun i =>
    if i + 1 < p then none
    else some (atrFun (trFun (dAt high) (dAt low) (dAt close)) p i)

/-- Basic upper band `(high+low)/2 + multiplier*ATR` (meaningful where ATR is). -/
def stUpper (h l c : ℕ → ℚ) (p : ℕ) (m : ℚ) : ℕ → ℚ :=
  fun i => (h i + l i) / 2 + m * atrFun (trFun h l c) p i

/-- Basic lower band `(high+low)/2 - multiplier*ATR`. -/
def stLower (h l c : ℕ → ℚ) (p : ℕ) (m : ℚ) : ℕ → ℚ :=
  fun i => (h i + l i) / 2 - m * atrFun (trFun h l c) p i

/-- One Supertrend transition, on the state
`(finalUpper, finalLower, supertrend, direction)` of the previous bar. -/
def stStep (ub lb c : ℕ → ℚ) (st : ℚ × ℚ × ℚ × ℚ) (i : ℕ) : ℚ × ℚ × ℚ × ℚ :=
  let fu := if ub i < st.1 ∨ st.1 < c (i - 1) then ub i else st.1
  let fl := if st.2.1 < lb i ∨ c (i - 1) < st.2.1 then lb i else st.2.1
  if st.2.2.2 = 1 then
    if c i ≤ fl then (fu, fl, fl, -1) else (fu, fl, fu, 1)
  else
    if fu ≤ c i then (fu, fl, fu, 1) else (fu, fl, fl, -1)

/-- Supertrend state at index `i`: seeded at `p-1` with
`(upper, lower, upper, +1)` (junk below, never read), transitions after. -/
def stFun (ub lb c : ℕ → ℚ) (p : ℕ) : ℕ → ℚ × ℚ × ℚ × ℚ
  | 0 => (ub (p - 1), lb (p - 1), ub (p - 1), 1)
  | i + 1 =>
    if i + 1 ≤ p - 1 then (ub (p - 1), lb (p - 1), ub (p - 1), 1)
    else stStep ub lb c (stFun ub lb c p i) (i + 1)

/-- The state stream used by `Supertrend._calculate_supertrend` on
aligned buffers, as a function of the bar index. -/
def stState (high low close : List ℚ) (p : ℕ) (m : ℚ) : ℕ → ℚ × ℚ × ℚ × ℚ :=
  stFun (stUpper (dAt high) (dAt low) (dAt close) p m)
        (stLower (dAt high) (dAt low) (dAt close) p m)
        (dAt close) p

/-- Supertrend value output: NaN before `p-1`, then the supertrend line. -/
def stValue (high low close : List ℚ) (p : ℕ) (m : ℚ) : List OF :=
  (List.range close.length).map fun i =>
    if i + 1 < p then none else some (stState high low close p m i).2.2.1

/-- Supertrend direction output: the source allocates it with `np.zeros`,
so bars before `p-1` hold `0.0`, then `+1.0`/`-1.0`. -/
def stDir (high low close : List ℚ) (p : ℕ) (m : ℚ) : List ℚ :=
  (List.range close.length).map fun i =>
    if i + 1 < p then (0 : ℚ) else (stState high low close p m i).2.2.2

/-- Internal `final_upper` buffer: NaN before `p-1`, then the band. -/
def stFinalUpper (high low close : List ℚ) (p : ℕ) (m : ℚ) : List OF :=
  (List.range close.length).map fun i =>
    if i + 1 < p then none else some (stState high low close p m i).1

/-- Internal `final_lower` buffer: NaN before `p-1`, then the band. -/
def stFinalLower (high low close : List ℚ) (p : ℕ) (m : ℚ) : List OF :=
  (List.range close.length).map fun i =>
    if i + 1 < p then none else some (stState high low close p m i).2.1

/-! ### Ichimoku (`Ichimoku._calculate_ichimoku`) -/

/-- The midpoint of the rolling high/low extrema over a window of size
`per`, ending at `i` — the formula shared by Tenkan-sen, Kijun-sen and
Senkou Span B. -/
def ichMidVal (h l : ℕ → ℚ) (per i : ℕ) : ℚ :=
  (wMax h (i + 1 - per) per + wMin l (i + 1 - per) per) / 2

/-- Tenkan-sen / Kijun-sen buffer (the two source loops are identical up
to the period): NaN before `per-1`, window midpoint after. -/
def ichConv (high low : List ℚ) (n per : ℕ) : List OF :=
  (List.range n).map fun i =>
    if i + 1 < per then none else some (ichMidVal (dAt high) (dAt low) per i)

/-- Senkou Span A: `(tenkan[i]+kijun[i])/2` written `d` slots ahead into a
buffer of length `n+d`, then trimmed back to length `n`. -/
def ichSpanA (high low : List ℚ) (n tp kp d : ℕ) : List OF :=
  ((List.range (n + d)).map fun j =>
    if max tp kp + d ≤ j + 1 then
      some ((ichMidVal (dAt high) (dAt low) tp (j - d) +
             ichMidVal (dAt high) (dAt low) kp (j - d)) / 2)
    else none).take n

/-- Senkou Span B: the `sbp` window midpoint written `d` slots ahead,
trimmed back to length `n`. -/
def ichSpanB (high low : List ℚ) (n sbp d : ℕ) : List OF :=
  ((List.range (n + d)).map fun j =>
    if sbp + d ≤ j + 1 then some (ichMidVal (dAt high) (dAt low) sbp (j - d))
    else none).take n

/-- Chikou Span: `chikou[d:] = close[:-d]`, i.e. `close` shifted back by
`d`, with the first `d` slots left NaN. -/
def ichChikou (close : List ℚ) (n d : ℕ) : List OF :=
  (List.range n).map fun j => if d ≤ j then some (dAt close (j - d)) else none

/-- `Ichimoku._calculate_ichimoku`.  With `d = 0` on a nonempty series the
Chikou assignment pairs a length-`n` destination with the empty slice
`close[:-0]`, so the numpy broadcast fails and the whole call raises:
that failing case is `none`.  The embedding is meaningful on positive
periods, the domain `Ichimoku.calculate` enforces (for `period = 0` the
Python loops would start at the negative index `-1`, an artifact outside
the validated domain that no claim touches). -/
def ichimokuCalc (high low close : List ℚ) (tp kp sbp d : ℕ) :
    Option (List OF × List OF × List OF × List OF × List OF) :=
  let n := close.length
  if d = 0 ∧ n ≠ 0 then none
  else some (ichConv high low n tp, ichConv high low n kp,
             ichSpanA high low n tp kp d, ichSpanB high low n sbp d,
             ichChikou close n d)

/-! ### The `calculate` entry points.  The shared `BaseIndicator` class
(`validate_input`, `validate_period`, `align_arrays`, the error classes)
lives in `openalgo/indicators/base.py`, which is not part of the provided
sources, so those pieces are modelled from the spec (section 4.1 and the
error taxonomy of section 7). -/

/-- Modelled from the spec: the three error kinds of the missing
`base.py` error taxonomy, plus the uncaught numpy broadcast failure that
`Ichimoku._calculate_ichimoku` raises when `displacement = 0`. -/
inductive Err : Type
  | invalidInput
  | invalidParameter
  | misaligned
  | runtimeBroadcast
deriving DecidableEq

/-- Modelled from the spec: `BaseIndicator.validate_input` (missing
`base.py`) fails when the input is empty; the non-numeric check is
vacuous on rational buffers. -/
def validateInput (data : List ℚ) : Except Err (List ℚ) :=
  if data.isEmpty then .error .invalidInput else .ok data

/-- Modelled from the spec: `BaseIndicator.validate_period` (missing
`base.py`) fails when `period <= 0` or `period > series_length`. -/
def validatePeriod (period : ℤ) (n : ℕ) : Except Err Unit :=
  if period ≤ 0 ∨ (n : ℤ) < period then .error .invalidParameter else .ok ()

/-- Modelled from the spec: `BaseIndicator.align_arrays` (missing
`base.py`) matches positionally comparable buffers to their common
length, shortest-common-prefix semantics (take the first `N` elements of
each, `N` = minimum length). -/
def align2 (a b : List ℚ) : List ℚ × List ℚ :=
  let n := min a.length b.length
  (a.take n, b.take n)

/-- Modelled from the spec: `align_arrays` on three buffers. -/
def align3 (a b c : List ℚ) : List ℚ × List ℚ × List ℚ :=
  let n := min a.length (min b.length c.length)
  (a.take n, b.take n, c.take n)

/-- `SMA.calculate`. -/
def smaCalculate (data : List ℚ) (period : ℤ) : Except Err (List OF) := do
  let d ← validateInput data
  validatePeriod period d.length
  .ok (smaCalc d period.toNat)

/-- `EMA.calculate`. -/
def emaCalculate (data : List ℚ) (period : ℤ) : Except Err (List OF) := do
  let d ← validateInput data
  validatePeriod period d.length
  .ok (emaCalc (d.map some) period.toNat)

/-- `WMA.calculate` on a numeric input buffer. -/
def wmaCalculate (data : List ℚ) (period : ℤ) : Except Err (List OF) := do
  let d ← validateInput data
  validatePeriod period d.length
  .ok (wmaCalc (d.map some) period.toNat)

/-- `DEMA.calculate` (the nested `EMA.calculate` calls re-run the same
validations, which are guaranteed to pass again). -/
def demaCalculate (data : List ℚ) (period : ℤ) : Except Err (List OF) := do
  let d ← validateInput data
  validatePeriod period d.length
  .ok (demaCalc d period.toNat)

/-- `TEMA.calculate`. -/
def temaCalculate (data : List ℚ) (period : ℤ) : Except Err (List OF) := do
  let d ← validateInput data
  validatePeriod period d.length
  .ok (temaCalc d period.toNat)

/-- `HMA.calculate`: the nested `WMA.calculate(data, period // 2)` call
re-validates its own period, so `period = 1` fails there (`period // 2 = 0`);
the later nested periods `period` and `isqrt period` always re-validate
successfully. -/
def hmaCalculate (data : List ℚ) (period : ℤ) : Except Err (List OF) := do
  let d ← validateInput data
  validatePeriod period d.length
  validatePeriod (period / 2) d.length
  .ok (hmaCalc d period.toNat)

/-- `ZLEMA.calculate`. -/
def zlemaCalculate (data : List ℚ) (period : ℤ) : Except Err (List OF) := do
  let d ← validateInput data
  validatePeriod period d.length
  .ok (zlemaCalc d period.toNat)

/-- `T3.calculate`. -/
def t3Calculate (data : List ℚ) (period : ℤ) (vFactor : ℚ) : Except Err (List OF) := do
  let d ← validateInput data
  validatePeriod period d.length
  .ok (t3CalcOF d period.toNat vFactor)

/-- `VWMA.calculate`. -/
def vwmaCalculate (data volume : List ℚ) (period : ℤ) : Except Err (List OF) := do
  let d ← validateInput data
  let v ← validateInput volume
  let (da, va) := align2 d v
  validatePeriod period da.length
  .ok (vwmaCalc da va period.toNat)

/-- `ALMA.calculate`: period check, then `0 <= offset <= 1`, then `sigma > 0`. -/
def almaCalculate (expf : ℚ → ℚ) (data : List ℚ) (period : ℤ) (offset sigma : ℚ) :
    Except Err (List OF) := do
  let d ← validateInput data
  validatePeriod period d.length
  if ¬(0 ≤ offset ∧ offset ≤ 1) then .error .invalidParameter
  else if sigma ≤ 0 then .error .invalidParameter
  else .ok (almaCalc expf d period.toNat offset sigma)

/-- `KAMA.calculate`: period check, positivity of both sub-periods, then
`fast_period < slow_period`; the kernel receives the smoothing constants. -/
def kamaCalculate (data : List ℚ) (period fastPeriod slowPeriod : ℤ) :
    Except Err (List OF) := do
  let d ← validateInput data
  validatePeriod period d.length
  if fastPeriod ≤ 0 ∨ slowPeriod ≤ 0 then .error .invalidParameter
  else if slowPeriod ≤ fastPeriod then .error .invalidParameter
  else .ok (kamaCalc d period.toNat (2 / ((fastPeriod : ℚ) + 1)) (2 / ((slowPeriod : ℚ) + 1)))

/-- `FRAMA.calculate`: period check, then `period >= 4`. -/
def framaCalculate (logf : ℚ → ℚ) (data : List ℚ) (period : ℤ) : Except Err (List OF) := do
  let d ← validateInput data
  validatePeriod period d.length
  if period < 4 then .error .invalidParameter
  else .ok (framaCalc logf d period.toNat)

/-- `Supertrend.calculate`: three inputs validated and aligned, period
checked against the aligned close, then `multiplier > 0`. -/
def supertrendCalculate (high low close : List ℚ) (period : ℤ) (multiplier : ℚ) :
    Except Err (List OF × List ℚ) := do
  let h ← validateInput high
  let l ← validateInput low
  let c ← validateInput close
  let (ha, la, ca) := align3 h l c
  validatePeriod period ca.length
  if multiplier ≤ 0 then .error .invalidParameter
  else .ok (stValue ha la ca period.toNat multiplier, stDir ha la ca period.toNat multiplier)

/-- `Ichimoku.calculate`: three inputs validated and aligned, then the
three periods are checked for positivity ONLY (`period <= 0` raises; a
period larger than the aligned length is accepted), and `displacement`
is never validated; the `displacement = 0` broadcast failure inside the
kernel surfaces as a runtime error. -/
def ichimokuCalculate (high low close : List ℚ) (tp kp sbp : ℤ) (d : ℕ) :
    Except Err (List OF × List OF × List OF × List OF × List OF) := do
  let h ← validateInput high
  let l ← validateInput low
  let c ← validateInput close
  let (ha, la, ca) := align3 h l c
  if tp ≤ 0 ∨ kp ≤ 0 ∨ sbp ≤ 0 then .error .invalidParameter
  else
    match ichimokuCalc ha la ca tp.toNat kp.toNat sbp.toNat d with
    | none => .error .runtimeBroadcast
    | some r => .ok r

/-! ### Access lemmas -/

lemma oAt_map_some (data : List ℚ) (j : ℕ) (h : j < data.length) :
    oAt (data.map some) j = some (dAt data j) := by
  simp [oAt, dAt, List.getD_eq_getElem?_getD, List.getElem?_map, List.getElem?_eq_getElem h]

lemma emaSeed_pure (data : List ℚ) (p : ℕ) (hpn : p ≤ data.length) :
    emaFun (oAt (data.map some)) p 0 = some ((∑ j ∈ Finset.range p, dAt data j) / (p : ℚ)) := by
  have hmap : (List.range p).map (oAt (data.map some)) =
      ((List.range p).map (dAt data)).map some := by
    rw [List.map_map]
    refine List.map_congr_left ?_
    intro j hj
    have hj' : j < data.length := lt_of_lt_of_le (List.mem_range.mp hj) hpn
    simpa using oAt_map_some data j hj'
  have h0 : emaFun (oAt (data.map some)) p 0 =
      ofDiv (ofSum ((List.range p).map (oAt (data.map some)))) (some (p : ℚ)) := rfl
  rw [h0, hmap, ofSum_map_some, listSum_range_map, ofDiv_some_some]

lemma emaFun_low (x : ℕ → OF) (p : ℕ) (i : ℕ) (h : i ≤ p - 1) :
    emaFun x p i = emaFun x p 0 := by
  cases i with
  | zero => rfl
  | succ k =>
    have : k + 1 ≤ p - 1 := h
    simp [emaFun, this]

lemma emaFun_pure (data : List ℚ) (p : ℕ) (hpn : p ≤ data.length) :
    ∀ i, i < data.length → ∃ y, emaFun (oAt (data.map some)) p i = some y := by
  intro i
  induction i with
  | zero => intro _; exact ⟨_, emaSeed_pure data p hpn⟩
  | succ k ih =>
    intro hk
    by_cases hlow : k + 1 ≤ p - 1
    · rw [emaFun_low _ _ _ hlow]
      exact ⟨_, emaSeed_pure data p hpn⟩
    · have hk' : k < data.length := Nat.lt_of_succ_lt hk
      obtain ⟨y, hy⟩ := ih hk'
      refine ⟨2 / ((p : ℚ) + 1) * dAt data (k + 1) + (1 - 2 / ((p : ℚ) + 1)) * y, ?_⟩
      simp [emaFun, hlow, hy, oAt_map_some data (k+1) hk]

lemma smaSumFun_seed (x : ℕ → ℚ) (p : ℕ) :
    smaSumFun x p (p - 1) = ∑ j ∈ Finset.range p, x j := by
  cases hp : p - 1 with
  | zero => rfl
  | succ k =>
    have hle : k + 1 ≤ p - 1 := by omega
    simp [smaSumFun, hle]

/-- Sliding a trailing window of size `p` one slot to the right. -/
lemma window_step (x : ℕ → ℚ) (p a : ℕ) (hp : 1 ≤ p) :
    (∑ j ∈ Finset.range p, x (a + j)) - x a + x (a + p) =
    ∑ j ∈ Finset.range p, x (a + 1 + j) := by
  obtain ⟨m, rfl⟩ : ∃ m, p = m + 1 := ⟨p - 1, by omega⟩
  rw [Finset.sum_range_succ' (fun j => x (a + j)) m,
      Finset.sum_range_succ (fun j => x (a + 1 + j)) m]
  have h2 : ∑ j ∈ Finset.range m, x (a + (j + 1)) = ∑ j ∈ Finset.range m, x (a + 1 + j) :=
    Finset.sum_congr rfl fun j _ => by congr 1; omega
  have h3 : x (a + (m + 1)) = x (a + 1 + m) := by congr 1; omega
  simp only [Nat.add_zero] at *
  rw [h2, h3]
  ring

lemma smaSumFun_window (x : ℕ → ℚ) (p : ℕ) (hp : 1 ≤ p) :
    ∀ i, p - 1 ≤ i → smaSumFun x p i = ∑ j ∈ Finset.range p, x (i + 1 - p + j) := by
  intro i
  induction i with
  | zero =>
    intro h0
    have hp1 : p = 1 := by omega
    subst hp1
    simp [smaSumFun]
  | succ k ih =>
    intro hk
    by_cases hlow : k + 1 ≤ p - 1
    · have hk1 : k + 1 = p - 1 := by omega
      rw [hk1, smaSumFun_seed]
      have h0 : p - 1 + 1 - p = 0 := by omega
      simp [h0]
    · have hkp : p ≤ k + 1 := by omega
      have hk' : p - 1 ≤ k := by omega
      have ihv := ih hk'
      have hbr : smaSumFun x p (k + 1) = smaSumFun x p k - x (k + 1 - p) + x (k + 1) := by
        simp [smaSumFun, hlow]
      rw [hbr, ihv]
      have h1 : k + 1 + 1 - p = k + 1 - p + 1 := by omega
      rw [h1]
      generalize hga : k + 1 - p = a
      have h2 : k + 1 = a + p := by omega
      rw [h2]
      exact window_step x p a hp

/-- Claim C2 —
For every numeric series with `len >= period >= 1`, EMA is NaN strictly
below `period-1`, its value at `period-1` is the arithmetic mean of the
first `period` samples and coincides exactly with SMA at that index, and
for `i >= period` it satisfies
`ema[i] = alpha*data[i] + (1-alpha)*ema[i-1]` with `alpha = 2/(period+1)`. -/
theorem claim2_ema_seed_recurrence (data : List ℚ) (p : ℕ)
    (hp : 1 ≤ p) (hpn : p ≤ data.length) :
    (∀ i, i + 1 < p → (emaCalc (data.map some) p).getD i none = none) ∧
    (emaCalc (data.map some) p).getD (p - 1) none =
      some ((∑ j ∈ Finset.range p, dAt data j) / (p : ℚ)) ∧
    (emaCalc (data.map some) p).getD (p - 1) none = (smaCalc data p).getD (p - 1) none ∧
    (∀ i, p ≤ i → i < data.length →
      ∃ prev, (emaCalc (data.map some) p).getD (i - 1) none = some prev ∧
        (emaCalc (data.map some) p).getD i none =
          some (2 / ((p : ℚ) + 1) * dAt data i + (1 - 2 / ((p : ℚ) + 1)) * prev)) := by
  have hlen : (data.map some).length = data.length := by simp
  have hgetD : ∀ i, i < data.length → (emaCalc (data.map some) p).getD i none =
      if i + 1 < p then none else emaFun (oAt (data.map some)) p i := by
    intro i hi
    unfold emaCalc
    rw [hlen, rangeMap_getD _ _ _ _ hi]
  refine ⟨?_, ?_, ?_, ?_⟩
  · intro i hilt
    have hi : i < data.length := by omega
    rw [hgetD i hi, if_pos hilt]
  · have hi : p - 1 < data.length := by omega
    rw [hgetD _ hi, if_neg (by omega)]
    rw [emaFun_low _ _ _ (le_refl _)]
    exact emaSeed_pure data p hpn
  · have hi : p - 1 < data.length := by omega
    rw [hgetD _ hi, if_neg (by omega)]
    rw [emaFun_low _ _ _ (le_refl _), emaSeed_pure data p hpn]
    unfold smaCalc
    rw [rangeMap_getD _ _ _ _ hi, if_neg (by omega), smaSumFun_seed]
  · intro i hpi hin
    obtain ⟨k, hk⟩ : ∃ k, i = k + 1 := ⟨i - 1, by omega⟩
    subst hk
    have hk' : k < data.length := by omega
    obtain ⟨prev, hprev⟩ := emaFun_pure data p hpn k hk'
    refine ⟨prev, ?_, ?_⟩
    · have : k + 1 - 1 = k := by omega
      rw [this, hgetD k hk', if_neg (by omega)]
      exact hprev
    · rw [hgetD _ hin, if_neg (by omega)]
      have hbr : ¬ (k + 1 ≤ p - 1) := by omega
      simp [emaFun, hbr, hprev, oAt_map_some data (k+1) hin]

/-- Witness for C2 at `data = [1,2,3,4,5]`, `period = 3`. -/
theorem claim2_witness :
    (1 ≤ 3 ∧ 3 ≤ ([1, 2, 3, 4, 5] : List ℚ).length) ∧
    ((∀ i, i + 1 < 3 → (emaCalc (([1, 2, 3, 4, 5] : List ℚ).map some) 3).getD i none = none) ∧
      (emaCalc (([1, 2, 3, 4, 5] : List ℚ).map some) 3).getD 2 none =
        some ((∑ j ∈ Finset.range 3, dAt [1, 2, 3, 4, 5] j) / (3 : ℚ)) ∧
      (emaCalc (([1, 2, 3, 4, 5] : List ℚ).map some) 3).getD 2 none =
        (smaCalc [1, 2, 3, 4, 5] 3).getD 2 none ∧
      (∀ i, 3 ≤ i → i < ([1, 2, 3, 4, 5] : List ℚ).length →
        ∃ prev, (emaCalc (([1, 2, 3, 4, 5] : List ℚ).map some) 3).getD (i - 1) none = some prev ∧
          (emaCalc (([1, 2, 3, 4, 5] : List ℚ).map some) 3).getD i none =
            some (2 / ((3 : ℚ) + 1) * dAt [1, 2, 3, 4, 5] i +
              (1 - 2 / ((3 : ℚ) + 1)) * prev))) :=
  ⟨⟨by decide, by decide⟩, claim2_ema_seed_recurrence [1, 2, 3, 4, 5] 3 (by decide) (by decide)⟩

/-! ### Constant-window lemmas (claim C8) -/

lemma gaussSum_q (p : ℕ) : ∑ j ∈ Finset.range p, ((j : ℚ) + 1) = (p : ℚ) * ((p : ℚ) + 1) / 2 := by
  induction p with
  | zero => simp
  | succ m ih =>
    rw [Finset.sum_range_succ, ih]
    push_cast
    ring

lemma wmaNormalizer_cast (p : ℕ) :
    ((p * (p + 1) / 2 : ℕ) : ℚ) = (p : ℚ) * ((p : ℚ) + 1) / 2 := by
  have hdvd : 2 ∣ p * (p + 1) := (Nat.even_mul_succ_self p).two_dvd
  rw [Nat.cast_div hdvd (by norm_num)]
  push_cast
  ring

lemma sma_const (data : List ℚ) (p i : ℕ) (c : ℚ) (hp : 1 ≤ p) (hi : p - 1 ≤ i)
    (hin : i < data.length) (hc : ∀ j, j < p → dAt data (i + 1 - p + j) = c) :
    (smaCalc data p).getD i none = some c := by
  unfold smaCalc
  rw [rangeMap_getD _ _ _ _ hin, if_neg (by omega)]
  rw [smaSumFun_window (dAt data) p hp i hi]
  rw [Finset.sum_congr rfl fun j hj => hc j (Finset.mem_range.mp hj)]
  rw [Finset.sum_const, Finset.card_range, nsmul_eq_mul]
  have hpq : (p : ℚ) ≠ 0 := by positivity
  rw [mul_comm, mul_div_assoc, div_self hpq, mul_one]

lemma wma_const (data : List ℚ) (p i : ℕ) (c : ℚ) (hp : 1 ≤ p) (hi : p - 1 ≤ i)
    (hin : i < data.length) (hc : ∀ j, j < p → dAt data (i + 1 - p + j) = c) :
    (wmaCalc (data.map some) p).getD i none = some c := by
  unfold wmaCalc
  have hlen : (data.map some).length = data.length := by simp
  rw [hlen, rangeMap_getD _ _ _ _ hin, if_neg (by omega)]
  unfold wmaAt
  have hmap : (List.range p).map (fun j => ofMul (oAt (data.map some) (i + 1 - p + j)) (some ((j : ℚ) + 1))) =
      ((List.range p).map (fun (j : ℕ) => c * ((j : ℚ) + 1))).map some := by
    rw [List.map_map]
    refine List.map_congr_left ?_
    intro j hj
    have hj' : j < p := List.mem_range.mp hj
    have hidx : i + 1 - p + j < data.length := by omega
    rw [oAt_map_some data _ hidx, hc j hj']
    simp
  rw [hmap, ofSum_map_some, listSum_range_map, ofDiv_some_some]
  have hsum : ∑ j ∈ Finset.range p, c * ((j : ℚ) + 1) = c * ((p : ℚ) * ((p : ℚ) + 1) / 2) := by
    rw [← Finset.mul_sum, gaussSum_q]
  rw [hsum, wmaNormalizer_cast]
  have hne : (p : ℚ) * ((p : ℚ) + 1) / 2 ≠ 0 := by positivity
  rw [mul_div_assoc, div_self hne, mul_one]

lemma vwma_const (data volume : List ℚ) (p i : ℕ) (c : ℚ) (hp : 1 ≤ p) (hi : p - 1 ≤ i)
    (hin : i < data.length) (hc : ∀ j, j < p → dAt data (i + 1 - p + j) = c) :
    (vwmaCalc data volume p).getD i none = some c := by
  unfold vwmaCalc
  rw [rangeMap_getD _ _ _ _ hin, if_neg (by omega)]
  have hpv : ∑ j ∈ Finset.range p, dAt data (i + 1 - p + j) * dAt volume (i + 1 - p + j) =
      c * ∑ j ∈ Finset.range p, dAt volume (i + 1 - p + j) := by
    rw [Finset.mul_sum]
    refine Finset.sum_congr rfl fun j hj => ?_
    rw [hc j (Finset.mem_range.mp hj)]
  have hdi : dAt data i = c := by
    have := hc (p - 1) (by omega)
    have hix : i + 1 - p + (p - 1) = i := by omega
    rwa [hix] at this
  by_cases hv : 0 < ∑ j ∈ Finset.range p, dAt volume (i + 1 - p + j)
  · rw [if_pos hv, hpv]
    have hne : ∑ j ∈ Finset.range p, dAt volume (i + 1 - p + j) ≠ 0 := ne_of_gt hv
    rw [mul_div_assoc, div_self hne, mul_one]
  · rw [if_neg hv, hdi]

lemma alma_const (expf : ℚ → ℚ) (data : List ℚ) (p i : ℕ) (c : ℚ) (offset sigma : ℚ)
    (hpos : ∀ y, 0 < expf y) (hp : 1 ≤ p) (hi : p - 1 ≤ i)
    (hin : i < data.length) (hc : ∀ j, j < p → dAt data (i + 1 - p + j) = c) :
    (almaCalc expf data p offset sigma).getD i none = some c := by
  unfold almaCalc
  rw [rangeMap_getD _ _ _ _ hin, if_neg (by omega)]
  have hwpos : 0 < ∑ j ∈ Finset.range p, almaWeights expf p offset sigma j := by
    refine Finset.sum_pos (fun j _ => hpos _) ?_
    exact Finset.nonempty_range_iff.mpr (by omega)
  have hwne : (∑ j ∈ Finset.range p, almaWeights expf p offset sigma j) ≠ 0 := ne_of_gt hwpos
  have hsum : ∑ j ∈ Finset.range p,
      almaWeights expf p offset sigma j / (∑ k ∈ Finset.range p, almaWeights expf p offset sigma k) *
        dAt data (i + 1 - p + j) =
      (∑ j ∈ Finset.range p, almaWeights expf p offset sigma j) *
        (c / (∑ k ∈ Finset.range p, almaWeights expf p offset sigma k)) := by
    rw [Finset.sum_mul]
    refine Finset.sum_congr rfl fun j hj => ?_
    rw [hc j (Finset.mem_range.mp hj)]
    ring
  rw [hsum]
  rw [mul_div_assoc']
  rw [mul_comm, mul_div_assoc, div_self hwne, mul_one]

/-- Claim C8 —
For SMA, WMA, VWMA and ALMA, whenever every sample inside the trailing
window of size `period` at a defined index equals the constant `c` (and,
for VWMA, the windowed volume sum is nonzero), the output at that index
is exactly `c`: the normalized window weights sum to 1. -/
theorem claim8_constant_window :
    (∀ (data : List ℚ) (p i : ℕ) (c : ℚ), 1 ≤ p → p - 1 ≤ i → i < data.length →
      (∀ j, j < p → dAt data (i + 1 - p + j) = c) →
      (smaCalc data p).getD i none = some c) ∧
    (∀ (data : List ℚ) (p i : ℕ) (c : ℚ), 1 ≤ p → p - 1 ≤ i → i < data.length →
      (∀ j, j < p → dAt data (i + 1 - p + j) = c) →
      (wmaCalc (data.map some) p).getD i none = some c) ∧
    (∀ (data volume : List ℚ) (p i : ℕ) (c : ℚ), 1 ≤ p → p - 1 ≤ i → i < data.length →
      (∀ j, j < p → dAt data (i + 1 - p + j) = c) →
      (∑ j ∈ Finset.range p, dAt volume (i + 1 - p + j)) ≠ 0 →
      (vwmaCalc data volume p).getD i none = some c) ∧
    (∀ (expf : ℚ → ℚ) (data : List ℚ) (p i : ℕ) (c : ℚ) (offset sigma : ℚ),
      (∀ y, 0 < expf y) → 1 ≤ p → p - 1 ≤ i → i < data.length →
      (∀ j, j < p → dAt data (i + 1 - p + j) = c) →
      (almaCalc expf data p offset sigma).getD i none = some c) :=
  ⟨fun data p i c hp hi hin hc => sma_const data p i c hp hi hin hc,
   fun data p i c hp hi hin hc => wma_const data p i c hp hi hin hc,
   fun data volume p i c hp hi hin hc _ => vwma_const data volume p i c hp hi hin hc,
   fun expf data p i c offset sigma hpos hp hi hin hc =>
     alma_const expf data p i c offset sigma hpos hp hi hin hc⟩

/-- Witness for C8: constant series `[5,5,5]` with `period = 2` at index 2
(volume `[1,1,1]` for VWMA, constant weight function standing in for `exp`
for ALMA). -/
theorem claim8_witness :
    (smaCalc [5, 5, 5] 2).getD 2 none = some 5 ∧
    (wmaCalc (([5, 5, 5] : List ℚ).map some) 2).getD 2 none = some 5 ∧
    (vwmaCalc [5, 5, 5] [1, 1, 1] 2).getD 2 none = some 5 ∧
    (almaCalc (fun _ => 1) [5, 5, 5] 2 (1/2) 1).getD 2 none = some 5 := by
  refine ⟨?_, ?_, ?_, ?_⟩
  · exact claim8_constant_window.1 [5, 5, 5] 2 2 5 (by decide) (by decide) (by decide)
      (by decide)
  · exact claim8_constant_window.2.1 [5, 5, 5] 2 2 5 (by decide) (by decide) (by decide)
      (by decide)
  · refine claim8_constant_window.2.2.1 [5, 5, 5] [1, 1, 1] 2 2 5 (by decide) (by decide)
      (by decide) (by decide) ?_
    simp [Finset.sum_range_succ, dAt]
  · exact claim8_constant_window.2.2.2 (fun _ => 1) [5, 5, 5] 2 2 5 (1/2) 1
      (fun _ => one_pos) (by decide) (by decide) (by decide) (by decide)

/-! ### Claim C5: the VWMA fallback -/

/-- Counterexample to C5 as stated: with `data = [1,2]`, `volume = [-1,-1]`,
`period = 2`, the windowed volume sum is `-2`, which is nonzero, yet the
kernel takes the `sum_v > 0` ELSE branch and returns the raw price `2`
instead of the claimed quotient `3/2`. -/
theorem claim5_counterexample :
    (∑ j ∈ Finset.range 2, dAt [-1, -1] (1 + 1 - 2 + j)) ≠ 0 ∧
    (vwmaCalc [1, 2] [-1, -1] 2).getD 1 none = some 2 ∧
    (vwmaCalc [1, 2] [-1, -1] 2).getD 1 none ≠
      some ((∑ j ∈ Finset.range 2, dAt [1, 2] (1 + 1 - 2 + j) * dAt [-1, -1] (1 + 1 - 2 + j)) /
        (∑ j ∈ Finset.range 2, dAt [-1, -1] (1 + 1 - 2 + j))) := by
  have hsum : (∑ j ∈ Finset.range 2, dAt [-1, -1] (1 + 1 - 2 + j)) = (-2 : ℚ) := by
    norm_num [Finset.sum_range_succ, dAt]
  have hpv : (∑ j ∈ Finset.range 2, dAt [1, 2] (1 + 1 - 2 + j) * dAt [-1, -1] (1 + 1 - 2 + j)) =
      (-3 : ℚ) := by
    norm_num [Finset.sum_range_succ, dAt]
  have hval : (vwmaCalc [1, 2] [-1, -1] 2).getD 1 none = some 2 := by
    unfold vwmaCalc
    rw [rangeMap_getD _ _ _ _ (by norm_num), if_neg (by norm_num)]
    rw [hsum] at *
    norm_num [dAt, Finset.sum_range_succ]
  refine ⟨by rw [hsum]; norm_num, hval, ?_⟩
  rw [hval, hsum, hpv]
  norm_num

/-- Claim C5, amended —
At every defined VWMA index the output is a finite value (never NaN or a
division by zero): the quotient of windowed `price*volume` by windowed
volume when the windowed volume sum is POSITIVE, and the raw price
`data[i]` otherwise (the source tests `sum_v > 0`, not `sum_v != 0`, so a
negative windowed volume sum also takes the raw-price fallback). -/
theorem claim5_vwma_amended (data volume : List ℚ) (p i : ℕ)
    (hlen : data.length = volume.length) (hp : 1 ≤ p) (hi : p - 1 ≤ i)
    (hin : i < data.length) :
    ∃ v, (vwmaCalc data volume p).getD i none = some v ∧
      (0 < ∑ j ∈ Finset.range p, dAt volume (i + 1 - p + j) →
        v = (∑ j ∈ Finset.range p, dAt data (i + 1 - p + j) * dAt volume (i + 1 - p + j)) /
            (∑ j ∈ Finset.range p, dAt volume (i + 1 - p + j))) ∧
      (∑ j ∈ Finset.range p, dAt volume (i + 1 - p + j) ≤ 0 → v = dAt data i) := by
  unfold vwmaCalc
  rw [rangeMap_getD _ _ _ _ hin, if_neg (by omega)]
  by_cases hv : 0 < ∑ j ∈ Finset.range p, dAt volume (i + 1 - p + j)
  · rw [if_pos hv]
    exact ⟨_, rfl, fun _ => rfl, fun hle => absurd hv (not_lt.mpr hle)⟩
  · rw [if_neg hv]
    exact ⟨_, rfl, fun hpos => absurd hpos hv, fun _ => rfl⟩

/-- Witness for the amended C5 at `data = [1,2]`, `volume = [3,4]`, `p = 2`, `i = 1`. -/
theorem claim5_witness :
    ∃ v, (vwmaCalc [1, 2] [3, 4] 2).getD 1 none = some v ∧
      (0 < ∑ j ∈ Finset.range 2, dAt [3, 4] (1 + 1 - 2 + j) →
        v = (∑ j ∈ Finset.range 2, dAt [1, 2] (1 + 1 - 2 + j) * dAt [3, 4] (1 + 1 - 2 + j)) /
            (∑ j ∈ Finset.range 2, dAt [3, 4] (1 + 1 - 2 + j))) ∧
      (∑ j ∈ Finset.range 2, dAt [3, 4] (1 + 1 - 2 + j) ≤ 0 → v = dAt [1, 2] 1) :=
  claim5_vwma_amended [1, 2] [3, 4] 2 1 (by decide) (by decide) (by decide) (by decide)

/-! ### Warm-up lemmas (claim C1) -/

lemma takeRangeMap_getD {α : Type} (f : ℕ → α) (n m i : ℕ) (d : α) (hi : i < n) (him : i < m) :
    (((List.range m).map f).take n).getD i d = f i := by
  rw [List.getD_eq_getElem?_getD, List.getElem?_take_of_lt hi]
  rw [← List.getD_eq_getElem?_getD]
  exact rangeMap_getD f m i d him

lemma wmaAt_none (x : ℕ → OF) (p i : ℕ) (hp : 1 ≤ p) (hpi : p ≤ i + 1) (hx : x i = none) :
    wmaAt x p i = none := by
  unfold wmaAt
  have hmem : none ∈ (List.range p).map fun j => ofMul (x (i + 1 - p + j)) (some ((j : ℚ) + 1)) := by
    refine List.mem_map.mpr ⟨p - 1, List.mem_range.mpr (by omega), ?_⟩
    have hidx : i + 1 - p + (p - 1) = i := by omega
    rw [hidx, hx]
    simp
  rw [ofSum_of_mem_none hmem]
  simp [ofDiv]

lemma emaCalc_getD_none (data : List OF) (p i : ℕ) (hi : i < data.length) (hlow : i + 1 < p) :
    (emaCalc data p).getD i none = none := by
  unfold emaCalc
  rw [rangeMap_getD _ _ _ _ hi, if_pos hlow]

lemma wmaCalc_getD_none (data : List OF) (p i : ℕ) (hi : i < data.length) (hlow : i + 1 < p) :
    (wmaCalc data p).getD i none = none := by
  unfold wmaCalc
  rw [rangeMap_getD _ _ _ _ hi, if_pos hlow]

lemma wmaCalc_getD_of_at_none (data : List OF) (p i : ℕ) (hp : 1 ≤ p)
    (hi : i < data.length) (hx : oAt data i = none) :
    (wmaCalc data p).getD i none = none := by
  unfold wmaCalc
  rw [rangeMap_getD _ _ _ _ hi]
  by_cases hl : i + 1 < p
  · rw [if_pos hl]
  · rw [if_neg hl]
    exact wmaAt_none _ _ i hp (by omega) hx

lemma t3Calc_length (data : List ℚ) (p : ℕ) (v : ℚ) :
    (t3Calc data p v).length = data.length := by
  simp [t3Calc, gdCalc]

/-- Claim C1, amended —
Every kernel output has the length of its (aligned) input, and every
position strictly before the kernel's warm-up index (`period-1`, extended
by the displacement for the displaced Ichimoku outputs) holds the NaN
sentinel, with two exceptions forced by the source: T3 has no undefined
region at all (every cell of its output is a finite value, from index 0
on), and Supertrend's direction output holds `0.0` — not NaN — on the
warm-up positions (it is allocated with `np.zeros`). -/
theorem claim1_length_warmup :
    (∀ (data : List ℚ) (p : ℕ), (smaCalc data p).length = data.length ∧
      ∀ i, i < data.length → i + 1 < p → (smaCalc data p).getD i none = none) ∧
    (∀ (data : List ℚ) (p : ℕ), (emaCalc (data.map some) p).length = data.length ∧
      ∀ i, i < data.length → i + 1 < p → (emaCalc (data.map some) p).getD i none = none) ∧
    (∀ (data : List ℚ) (p : ℕ), (wmaCalc (data.map some) p).length = data.length ∧
      ∀ i, i < data.length → i + 1 < p → (wmaCalc (data.map some) p).getD i none = none) ∧
    (∀ (data : List ℚ) (p : ℕ), (demaCalc data p).length = data.length ∧
      ∀ i, i < data.length → i + 1 < p → (demaCalc data p).getD i none = none) ∧
    (∀ (data : List ℚ) (p : ℕ), (temaCalc data p).length = data.length ∧
      ∀ i, i < data.length → i + 1 < p → (temaCalc data p).getD i none = none) ∧
    (∀ (data : List ℚ) (p : ℕ), 1 ≤ p → (hmaCalc data p).length = data.length ∧
      ∀ i, i < data.length → i + 1 < p → (hmaCalc data p).getD i none = none) ∧
    (∀ (data : List ℚ) (p : ℕ), (zlemaCalc data p).length = data.length ∧
      ∀ i, i < data.length → i + 1 < p → (zlemaCalc data p).getD i none = none) ∧
    (∀ (data : List ℚ) (p : ℕ) (v : ℚ), (t3CalcOF data p v).length = data.length ∧
      ∀ i, i < data.length → ∃ q, (t3CalcOF data p v).getD i none = some q) ∧
    (∀ (data volume : List ℚ) (p : ℕ), (vwmaCalc data volume p).length = data.length ∧
      ∀ i, i < data.length → i + 1 < p → (vwmaCalc data volume p).getD i none = none) ∧
    (∀ (expf : ℚ → ℚ) (data : List ℚ) (p : ℕ) (offset sigma : ℚ),
      (almaCalc expf data p offset sigma).length = data.length ∧
      ∀ i, i < data.length → i + 1 < p →
        (almaCalc expf data p offset sigma).getD i none = none) ∧
    (∀ (data : List ℚ) (p : ℕ) (fsc ssc : ℚ), (kamaCalc data p fsc ssc).length = data.length ∧
      ∀ i, i < data.length → i + 1 < p → (kamaCalc data p fsc ssc).getD i none = none) ∧
    (∀ (logf : ℚ → ℚ) (data : List ℚ) (p : ℕ), (framaCalc logf data p).length = data.length ∧
      ∀ i, i < data.length → i + 1 < p → (framaCalc logf data p).getD i none = none) ∧
    (∀ (high low close : List ℚ) (p : ℕ) (m : ℚ),
      (stValue high low close p m).length = close.length ∧
      (stDir high low close p m).length = close.length ∧
      (∀ i, i < close.length → i + 1 < p → (stValue high low close p m).getD i none = none) ∧
      (∀ i, i < close.length → i + 1 < p → (stDir high low close p m).getD i 7 = 0)) ∧
    (∀ (high low close : List ℚ) (tp kp sbp d : ℕ) (t k a b ch : List OF),
      1 ≤ tp → 1 ≤ kp → 1 ≤ sbp →
      ichimokuCalc high low close tp kp sbp d = some (t, k, a, b, ch) →
      (t.length = close.length ∧ k.length = close.length ∧ a.length = close.length ∧
        b.length = close.length ∧ ch.length = close.length) ∧
      (∀ i, i < close.length → i + 1 < tp → t.getD i none = none) ∧
      (∀ i, i < close.length → i + 1 < kp → k.getD i none = none) ∧
      (∀ i, i < close.length → i + 1 < max tp kp + d → a.getD i none = none) ∧
      (∀ i, i < close.length → i + 1 < sbp + d → b.getD i none = none) ∧
      (∀ i, i < close.length → i < d → ch.getD i none = none)) := by
  refine ⟨?_, ?_, ?_, ?_, ?_, ?_, ?_, ?_, ?_, ?_, ?_, ?_, ?_, ?_⟩
  · intro data p
    refine ⟨by simp [smaCalc], fun i hi hlow => ?_⟩
    unfold smaCalc
    rw [rangeMap_getD _ _ _ _ hi, if_pos hlow]
  · intro data p
    refine ⟨by simp [emaCalc], fun i hi hlow => ?_⟩
    exact emaCalc_getD_none _ p i (by simpa using hi) hlow
  · intro data p
    refine ⟨by simp [wmaCalc], fun i hi hlow => ?_⟩
    exact wmaCalc_getD_none _ p i (by simpa using hi) hlow
  · intro data p
    refine ⟨by simp [demaCalc], fun i hi hlow => ?_⟩
    unfold demaCalc
    rw [rangeMap_getD _ _ _ _ hi]
    have he1 : oAt (emaCalc (data.map some) p) i = none := by
      unfold oAt
      exact emaCalc_getD_none _ p i (by simpa using hi) hlow
    rw [he1]
    simp
  · intro data p
    refine ⟨by simp [temaCalc], fun i hi hlow => ?_⟩
    unfold temaCalc
    rw [rangeMap_getD _ _ _ _ hi]
    have he1 : oAt (emaCalc (data.map some) p) i = none := by
      unfold oAt
      exact emaCalc_getD_none _ p i (by simpa using hi) hlow
    have he3 : oAt (emaCalc (emaCalc (emaCalc (data.map some) p) p) p) i = none := by
      unfold oAt
      refine emaCalc_getD_none _ p i ?_ hlow
      simpa [emaCalc] using hi
    rw [he1, he3]
    simp
  · intro data p hp
    have hsq : 1 ≤ p.sqrt := Nat.sqrt_pos.mpr (by omega)
    constructor
    · simp [hmaCalc, wmaCalc]
    · intro i hi hlow
      simp only [hmaCalc]
      refine wmaCalc_getD_of_at_none _ p.sqrt i hsq (by simpa using hi) ?_
      unfold oAt
      rw [rangeMap_getD _ _ _ _ hi]
      have hwf : (wmaCalc (data.map some) p).getD i none = none :=
        wmaCalc_getD_none _ p i (by simpa using hi) hlow
      rw [hwf]
      simp
  · intro data p
    constructor
    · simp [zlemaCalc, emaCalc]
    · intro i hi hlow
      unfold zlemaCalc
      refine emaCalc_getD_none _ p i ?_ hlow
      simpa using hi
  · intro data p v
    constructor
    · simp [t3CalcOF, t3Calc_length]
    · intro i hi
      unfold t3CalcOF
      have hlen : (t3Calc data p v).length = data.length := t3Calc_length data p v
      refine ⟨(t3Calc data p v).getD i 0, ?_⟩
      rw [List.getD_eq_getElem?_getD, List.getElem?_map]
      rw [List.getElem?_eq_getElem (by omega : i < (t3Calc data p v).length)]
      simp [List.getD_eq_getElem?_getD, List.getElem?_eq_getElem (by omega : i < (t3Calc data p v).length)]
  · intro data volume p
    refine ⟨by simp [vwmaCalc], fun i hi hlow => ?_⟩
    unfold vwmaCalc
    rw [rangeMap_getD _ _ _ _ hi, if_pos hlow]
  · intro expf data p offset sigma
    refine ⟨by simp [almaCalc], fun i hi hlow => ?_⟩
    unfold almaCalc
    rw [rangeMap_getD _ _ _ _ hi, if_pos hlow]
  · intro data p fsc ssc
    refine ⟨by simp [kamaCalc], fun i hi hlow => ?_⟩
    unfold kamaCalc
    rw [rangeMap_getD _ _ _ _ hi, if_pos hlow]
  · intro logf data p
    refine ⟨by simp [framaCalc], fun i hi hlow => ?_⟩
    unfold framaCalc
    rw [rangeMap_getD _ _ _ _ hi, if_pos hlow]
  · intro high low close p m
    refine ⟨by simp [stValue], by simp [stDir], fun i hi hlow => ?_, fun i hi hlow => ?_⟩
    · unfold stValue
      rw [rangeMap_getD _ _ _ _ hi, if_pos hlow]
    · unfold stDir
      rw [rangeMap_getD _ _ _ _ hi, if_pos hlow]
  · intro high low close tp kp sbp d t k a b ch htp hkp hsbp hres
    unfold ichimokuCalc at hres
    by_cases hguard : d = 0 ∧ close.length ≠ 0
    · rw [if_pos hguard] at hres
      cases hres
    · rw [if_neg hguard] at hres
      injection hres with hres
      obtain ⟨ht, hk, ha, hb, hch⟩ : t = ichConv high low close.length tp ∧
          k = ichConv high low close.length kp ∧
          a = ichSpanA high low close.length tp kp d ∧
          b = ichSpanB high low close.length sbp d ∧
          ch = ichChikou close close.length d := by
        have h1 := congrArg Prod.fst hres
        have h2 := congrArg (fun r => r.2.1) hres
        have h3 := congrArg (fun r => r.2.2.1) hres
        have h4 := congrArg (fun r => r.2.2.2.1) hres
        have h5 := congrArg (fun r => r.2.2.2.2) hres
        exact ⟨h1.symm, h2.symm, h3.symm, h4.symm, h5.symm⟩
      subst ht hk ha hb hch
      refine ⟨⟨?_, ?_, ?_, ?_, ?_⟩, ?_, ?_, ?_, ?_, ?_⟩
      · simp [ichConv]
      · simp [ichConv]
      · simp [ichSpanA]
      · simp [ichSpanB]
      · simp [ichChikou]
      · intro i hi hlow
        unfold ichConv
        rw [rangeMap_getD _ _ _ _ hi, if_pos hlow]
      · intro i hi hlow
        unfold ichConv
        rw [rangeMap_getD _ _ _ _ hi, if_pos hlow]
      · intro i hi hlow
        unfold ichSpanA
        rw [takeRangeMap_getD _ _ _ _ _ hi (by omega), if_neg (by omega)]
      · intro i hi hlow
        unfold ichSpanB
        rw [takeRangeMap_getD _ _ _ _ _ hi (by omega), if_neg (by omega)]
      · intro i hi hlow
        unfold ichChikou
        rw [rangeMap_getD _ _ _ _ hi, if_neg (by omega)]

/-- Counterexample to C1 as stated: T3 with `period = 2` on `[1,2,3]` has a
finite value (not the NaN sentinel) at index 0, which lies strictly before
the claimed warm-up index `period - 1 = 1` — `_calculate_gd` seeds at
index 0 and never writes NaN. -/
theorem claim1_counterexample : (t3CalcOF [1, 2, 3] 2 (7/10)).getD 0 none ≠ none := by
  have hlen : (t3Calc [1, 2, 3] 2 (7/10)).length = 3 := by
    rw [t3Calc_length]
    rfl
  unfold t3CalcOF
  rw [List.getD_eq_getElem?_getD, List.getElem?_map,
      List.getElem?_eq_getElem (by omega : 0 < (t3Calc [1, 2, 3] 2 (7/10)).length)]
  simp

/-- Witness for the amended C1: the SMA conjunct at `[1,2,3]`, `p = 3`
(length preserved, index 0 is NaN) and the Supertrend-direction exception
at a length-2 series with `p = 2` (index 0 holds `0.0`). -/
theorem claim1_witness :
    ((smaCalc [1, 2, 3] 3).length = ([1, 2, 3] : List ℚ).length ∧
      (smaCalc [1, 2, 3] 3).getD 0 none = none) ∧
    (stDir [1, 1] [1, 1] [1, 1] 2 3).getD 0 7 = 0 :=
  ⟨⟨(claim1_length_warmup.1 [1, 2, 3] 3).1,
    (claim1_length_warmup.1 [1, 2, 3] 3).2 0 (by decide) (by decide)⟩,
   (claim1_length_warmup.2.2.2.2.2.2.2.2.2.2.2.2.1 [1, 1] [1, 1] [1, 1] 2 3).2.2.2 0
     (by decide) (by decide)⟩

/-! ### Supertrend state lemmas (claim C3) -/

lemma stFun_low (ub lb c : ℕ → ℚ) (p i : ℕ) (h : i ≤ p - 1) :
    stFun ub lb c p i = (ub (p - 1), lb (p - 1), ub (p - 1), 1) := by
  cases i with
  | zero => rfl
  | succ k =>
    have hk : k + 1 ≤ p - 1 := h
    simp [stFun, hk]

lemma stFun_succ (ub lb c : ℕ → ℚ) (p k : ℕ) (h : ¬ k + 1 ≤ p - 1) :
    stFun ub lb c p (k + 1) = stStep ub lb c (stFun ub lb c p k) (k + 1) := by
  simp [stFun, h]

lemma stStep_dir_pm (ub lb c : ℕ → ℚ) (st : ℚ × ℚ × ℚ × ℚ) (i : ℕ) :
    (stStep ub lb c st i).2.2.2 = 1 ∨ (stStep ub lb c st i).2.2.2 = -1 := by
  simp only [stStep]
  split_ifs <;> simp

lemma stFun_dir_pm (ub lb c : ℕ → ℚ) (p : ℕ) : ∀ i,
    (stFun ub lb c p i).2.2.2 = 1 ∨ (stFun ub lb c p i).2.2.2 = -1 := by
  intro i
  induction i with
  | zero => left; rfl
  | succ k ih =>
    by_cases h : k + 1 ≤ p - 1
    · rw [stFun_low ub lb c p (k+1) h]
      left; rfl
    · rw [stFun_succ ub lb c p k h]
      exact stStep_dir_pm ub lb c _ (k + 1)

lemma stStep_flip_down (ub lb c : ℕ → ℚ) (st : ℚ × ℚ × ℚ × ℚ) (i : ℕ)
    (hd : st.2.2.2 = 1) (hch : (stStep ub lb c st i).2.2.2 = -1) :
    c i ≤ (stStep ub lb c st i).2.1 := by
  simp only [stStep, if_pos hd] at hch ⊢
  by_cases hc : c i ≤ (if st.2.1 < lb i ∨ c (i - 1) < st.2.1 then lb i else st.2.1)
  · rw [if_pos hc] at hch ⊢
    exact hc
  · rw [if_neg hc] at hch
    norm_num at hch

lemma stStep_flip_up (ub lb c : ℕ → ℚ) (st : ℚ × ℚ × ℚ × ℚ) (i : ℕ)
    (hd : st.2.2.2 = -1) (hch : (stStep ub lb c st i).2.2.2 = 1) :
    (stStep ub lb c st i).1 ≤ c i := by
  have hne : ¬ st.2.2.2 = 1 := by rw [hd]; norm_num
  simp only [stStep, if_neg hne] at hch ⊢
  by_cases hc : (if ub i < st.1 ∨ st.1 < c (i - 1) then ub i else st.1) ≤ c i
  · rw [if_pos hc] at hch ⊢
    exact hc
  · rw [if_neg hc] at hch
    norm_num at hch

/-- Counterexample to C3 as stated: on a 3-bar series with `period = 2`
the direction output is `[0, 1, 1]` — the `np.zeros` warm-up slot at
index 0 is neither `+1` nor `-1`. -/
theorem claim3_counterexample :
    ¬ (∀ x ∈ stDir [10, 10, 10] [10, 10, 10] [10, 10, 10] 2 3, x = 1 ∨ x = -1) := by
  intro hall
  have hmem : (0 : ℚ) ∈ stDir [10, 10, 10] [10, 10, 10] [10, 10, 10] 2 3 := by
    unfold stDir
    refine List.mem_map.mpr ⟨0, by simp, ?_⟩
    norm_num
  rcases hall 0 hmem with h | h <;> norm_num at h

/-- Claim C3, amended —
For aligned inputs with `n >= period >= 1` and positive multiplier, the
Supertrend direction is `0.0` on the `np.zeros` warm-up slots (strictly
before `period-1`) and takes only the values `+1` and `-1` from `period-1`
on; a flip from `+1` at `i-1` to `-1` at `i` happens only when
`close[i] <= finalLower[i]`, and a flip from `-1` to `+1` only when
`close[i] >= finalUpper[i]`. -/
theorem claim3_direction (high low close : List ℚ) (p : ℕ) (m : ℚ)
    (hhl : high.length = close.length) (hll : low.length = close.length)
    (hp : 1 ≤ p) (hpn : p ≤ close.length) (hm : 0 < m) :
    (∀ i, i < close.length → i + 1 < p → (stDir high low close p m).getD i 7 = 0) ∧
    (∀ i, i < close.length → p ≤ i + 1 →
      (stDir high low close p m).getD i 7 = 1 ∨ (stDir high low close p m).getD i 7 = -1) ∧
    (∀ i, p ≤ i → i < close.length →
      (stDir high low close p m).getD (i - 1) 7 = 1 →
      (stDir high low close p m).getD i 7 = -1 →
      ∃ fl, (stFinalLower high low close p m).getD i none = some fl ∧ dAt close i ≤ fl) ∧
    (∀ i, p ≤ i → i < close.length →
      (stDir high low close p m).getD (i - 1) 7 = -1 →
      (stDir high low close p m).getD i 7 = 1 →
      ∃ fu, (stFinalUpper high low close p m).getD i none = some fu ∧ fu ≤ dAt close i) := by
  have hgd : ∀ i, i < close.length → (stDir high low close p m).getD i 7 =
      if i + 1 < p then (0 : ℚ) else (stState high low close p m i).2.2.2 := by
    intro i hi
    unfold stDir
    rw [rangeMap_getD _ _ _ _ hi]
  refine ⟨?_, ?_, ?_, ?_⟩
  · intro i hi hlow
    rw [hgd i hi, if_pos hlow]
  · intro i hi hge
    rw [hgd i hi, if_neg (by omega)]
    exact stFun_dir_pm _ _ _ p i
  · intro i hpi hi hd1 hd2
    obtain ⟨k, rfl⟩ : ∃ k, i = k + 1 := ⟨i - 1, by omega⟩
    rw [hgd _ hi, if_neg (by omega)] at hd2
    have hk1 : k + 1 - 1 = k := by omega
    rw [hk1, hgd k (by omega), if_neg (by omega)] at hd1
    unfold stState at hd2
    rw [stFun_succ _ _ _ p k (by omega)] at hd2
    refine ⟨(stStep (stUpper (dAt high) (dAt low) (dAt close) p m)
        (stLower (dAt high) (dAt low) (dAt close) p m) (dAt close)
        (stFun (stUpper (dAt high) (dAt low) (dAt close) p m)
          (stLower (dAt high) (dAt low) (dAt close) p m) (dAt close) p k) (k + 1)).2.1, ?_, ?_⟩
    · unfold stFinalLower
      rw [rangeMap_getD _ _ _ _ hi, if_neg (by omega)]
      unfold stState
      rw [stFun_succ _ _ _ p k (by omega)]
    · exact stStep_flip_down _ _ _ _ (k + 1) hd1 hd2
  · intro i hpi hi hd1 hd2
    obtain ⟨k, rfl⟩ : ∃ k, i = k + 1 := ⟨i - 1, by omega⟩
    rw [hgd _ hi, if_neg (by omega)] at hd2
    have hk1 : k + 1 - 1 = k := by omega
    rw [hk1, hgd k (by omega), if_neg (by omega)] at hd1
    unfold stState at hd2
    rw [stFun_succ _ _ _ p k (by omega)] at hd2
    refine ⟨(stStep (stUpper (dAt high) (dAt low) (dAt close) p m)
        (stLower (dAt high) (dAt low) (dAt close) p m) (dAt close)
        (stFun (stUpper (dAt high) (dAt low) (dAt close) p m)
          (stLower (dAt high) (dAt low) (dAt close) p m) (dAt close) p k) (k + 1)).1, ?_, ?_⟩
    · unfold stFinalUpper
      rw [rangeMap_getD _ _ _ _ hi, if_neg (by omega)]
      unfold stState
      rw [stFun_succ _ _ _ p k (by omega)]
    · exact stStep_flip_up _ _ _ _ (k + 1) hd1 hd2

/-- Witness for the amended C3 on the constant 2-bar series with
`period = 2`, `multiplier = 3`. -/
theorem claim3_witness :
    (∀ i, i < ([10, 10] : List ℚ).length → i + 1 < 2 →
      (stDir [10, 10] [10, 10] [10, 10] 2 3).getD i 7 = 0) ∧
    (∀ i, i < ([10, 10] : List ℚ).length → 2 ≤ i + 1 →
      (stDir [10, 10] [10, 10] [10, 10] 2 3).getD i 7 = 1 ∨
        (stDir [10, 10] [10, 10] [10, 10] 2 3).getD i 7 = -1) ∧
    (∀ i, 2 ≤ i → i < ([10, 10] : List ℚ).length →
      (stDir [10, 10] [10, 10] [10, 10] 2 3).getD (i - 1) 7 = 1 →
      (stDir [10, 10] [10, 10] [10, 10] 2 3).getD i 7 = -1 →
      ∃ fl, (stFinalLower [10, 10] [10, 10] [10, 10] 2 3).getD i none = some fl ∧
        dAt [10, 10] i ≤ fl) ∧
    (∀ i, 2 ≤ i → i < ([10, 10] : List ℚ).length →
      (stDir [10, 10] [10, 10] [10, 10] 2 3).getD (i - 1) 7 = -1 →
      (stDir [10, 10] [10, 10] [10, 10] 2 3).getD i 7 = 1 →
      ∃ fu, (stFinalUpper [10, 10] [10, 10] [10, 10] 2 3).getD i none = some fu ∧
        fu ≤ dAt [10, 10] i) :=
  claim3_direction [10, 10] [10, 10] [10, 10] 2 3 rfl rfl (by decide) (by decide) zero_lt_three

/-! ### Ichimoku Chikou lemmas (claims C6, C10) -/

lemma ichimokuCalc_d0 (high low close : List ℚ) (tp kp sbp : ℕ) (h : close.length ≠ 0) :
    ichimokuCalc high low close tp kp sbp 0 = none := by
  unfold ichimokuCalc
  rw [if_pos ⟨rfl, h⟩]

lemma ichimokuCalc_some (high low close : List ℚ) (tp kp sbp d : ℕ)
    (hd : d ≠ 0 ∨ close.length = 0) :
    ichimokuCalc high low close tp kp sbp d =
      some (ichConv high low close.length tp, ichConv high low close.length kp,
            ichSpanA high low close.length tp kp d, ichSpanB high low close.length sbp d,
            ichChikou close close.length d) := by
  unfold ichimokuCalc
  rw [if_neg (by tauto)]

/-- Counterexample to C6 as stated: with `close = [10,20,30]` and
`displacement = 1` the LAST position of the Chikou output holds the
finite value `close[1] = 20`, not the claimed NaN — `chikou[d:] =
close[:-d]` fills every slot from `d` to `n-1`. -/
theorem claim6_counterexample :
    ((ichimokuCalc [1, 1, 1] [1, 1, 1] [10, 20, 30] 1 1 1 1).map
      fun r => r.2.2.2.2.getD 2 none) = some (some 20) ∧
    ((ichimokuCalc [1, 1, 1] [1, 1, 1] [10, 20, 30] 1 1 1 1).map
      fun r => r.2.2.2.2.getD 2 none) ≠ some none := by
  have hch : (ichChikou [10, 20, 30] 3 1).getD 2 none = some 20 := by
    unfold ichChikou
    rw [rangeMap_getD _ _ _ _ (by norm_num), if_pos (by norm_num)]
    norm_num [dAt]
  have hic := ichimokuCalc_some [1, 1, 1] [1, 1, 1] [10, 20, 30] 1 1 1 1 (by norm_num)
  rw [hic]
  simp only [Option.map_some']
  have hlen : ([10, 20, 30] : List ℚ).length = 3 := rfl
  refine ⟨?_, ?_⟩
  · rw [hlen, hch]
  · rw [hlen, hch]
    simp

/-- Claim C6, amended —
For `displacement >= 1` the Ichimoku call succeeds and its Chikou output
satisfies `chikou[i] = close[i-d]` for every `d <= i <= n-1`
(`chikou[d:] = close[:-d]`), while the FIRST `d` positions are NaN; the
last `d` positions are filled (with `close[n-1-d]` etc.), not NaN — only
the first-`d` half of the claimed undefined region exists. -/
theorem claim6_chikou (high low close : List ℚ) (tp kp sbp d : ℕ) (hd : 1 ≤ d) :
    ∃ t k a b ch, ichimokuCalc high low close tp kp sbp d = some (t, k, a, b, ch) ∧
      (∀ i, d ≤ i → i < close.length → ch.getD i none = some (dAt close (i - d))) ∧
      (∀ i, i < close.length → i < d → ch.getD i none = none) := by
  refine ⟨_, _, _, _, _, ichimokuCalc_some high low close tp kp sbp d (by omega), ?_, ?_⟩
  · intro i hdi hin
    unfold ichChikou
    rw [rangeMap_getD _ _ _ _ hin, if_pos hdi]
  · intro i hin hid
    unfold ichChikou
    rw [rangeMap_getD _ _ _ _ hin, if_neg (by omega)]

/-- Witness for the amended C6 at `close = [10,20,30]`, `d = 1`. -/
theorem claim6_witness :
    ∃ t k a b ch, ichimokuCalc [1, 1, 1] [1, 1, 1] [10, 20, 30] 9 26 52 1 = some (t, k, a, b, ch) ∧
      (∀ i, 1 ≤ i → i < ([10, 20, 30] : List ℚ).length →
        ch.getD i none = some (dAt [10, 20, 30] (i - 1))) ∧
      (∀ i, i < ([10, 20, 30] : List ℚ).length → i < 1 → ch.getD i none = none) :=
  claim6_chikou [1, 1, 1] [1, 1, 1] [10, 20, 30] 9 26 52 1 (by decide)

/-! ### Window congruence (claim C9) -/

lemma wMax_congr (f g : ℕ → ℚ) (a len : ℕ) (h : ∀ j, a ≤ j → j < a + len → f j = g j)
    (hbase : f a = g a) : wMax f a len = wMax g a len := by
  unfold wMax
  rw [hbase]
  congr 1
  refine List.map_congr_left ?_
  intro j hj
  obtain ⟨h1, h2⟩ := List.mem_range'_1.mp hj
  exact h j h1 h2

lemma wMin_congr (f g : ℕ → ℚ) (a len : ℕ) (h : ∀ j, a ≤ j → j < a + len → f j = g j)
    (hbase : f a = g a) : wMin f a len = wMin g a len := by
  unfold wMin
  rw [hbase]
  congr 1
  refine List.map_congr_left ?_
  intro j hj
  obtain ⟨h1, h2⟩ := List.mem_range'_1.mp hj
  exact h j h1 h2

/-- The window midpoint at index `i` only reads highs/lows at positions
`<= i` (when the window fits, `per <= i+1`). -/
lemma ichMidVal_congr (h h' l l' : ℕ → ℚ) (per i : ℕ) (hper : 1 ≤ per) (hpi : per ≤ i + 1)
    (hh : ∀ j, j ≤ i → h j = h' j) (hl : ∀ j, j ≤ i → l j = l' j) :
    ichMidVal h l per i = ichMidVal h' l' per i := by
  unfold ichMidVal
  have ha : i + 1 - per + per = i + 1 := by omega
  have hbounds : ∀ j, i + 1 - per ≤ j → j < i + 1 - per + per → j ≤ i := by omega
  rw [wMax_congr h h' (i + 1 - per) per (fun j h1 h2 => hh j (hbounds j h1 h2))
        (hh _ (by omega)),
      wMin_congr l l' (i + 1 - per) per (fun j h1 h2 => hl j (hbounds j h1 h2))
        (hl _ (by omega))]

lemma ichSpanA_getD (high low : List ℚ) (n tp kp d i : ℕ) (hin : i < n) :
    (ichSpanA high low n tp kp d).getD i none =
      if max tp kp + d ≤ i + 1 then
        some ((ichMidVal (dAt high) (dAt low) tp (i - d) +
               ichMidVal (dAt high) (dAt low) kp (i - d)) / 2)
      else none := by
  unfold ichSpanA
  exact takeRangeMap_getD _ n (n + d) i none hin (by omega)

lemma ichSpanB_getD (high low : List ℚ) (n sbp d i : ℕ) (hin : i < n) :
    (ichSpanB high low n sbp d).getD i none =
      if sbp + d ≤ i + 1 then some (ichMidVal (dAt high) (dAt low) sbp (i - d))
      else none := by
  unfold ichSpanB
  exact takeRangeMap_getD _ n (n + d) i none hin (by omega)

lemma ichSpanA_length (high low : List ℚ) (n tp kp d : ℕ) :
    (ichSpanA high low n tp kp d).length = n := by
  simp [ichSpanA]

lemma ichSpanB_length (high low : List ℚ) (n sbp d : ℕ) :
    (ichSpanB high low n sbp d).length = n := by
  simp [ichSpanB]

/-- Claim C9 —
Two-run noninterference of the Senkou spans: with the same highs, lows and
parameters, changing the close series (same length) leaves Senkou Span A
and Senkou Span B identical; and the span value at output index `i+d`
depends only on highs/lows at positions `<= i`. -/
theorem claim9_span_noninterference :
    (∀ (high low close close' : List ℚ) (tp kp sbp d : ℕ),
      close.length = close'.length →
      (ichimokuCalc high low close tp kp sbp d).map (fun r => r.2.2.1) =
        (ichimokuCalc high low close' tp kp sbp d).map (fun r => r.2.2.1) ∧
      (ichimokuCalc high low close tp kp sbp d).map (fun r => r.2.2.2.1) =
        (ichimokuCalc high low close' tp kp sbp d).map (fun r => r.2.2.2.1)) ∧
    (∀ (high low high' low' close : List ℚ) (tp kp sbp d i : ℕ),
      1 ≤ tp → 1 ≤ kp → 1 ≤ sbp →
      (∀ j, j ≤ i → dAt high j = dAt high' j) → (∀ j, j ≤ i → dAt low j = dAt low' j) →
      (ichimokuCalc high low close tp kp sbp d).map (fun r => r.2.2.1.getD (i + d) none) =
        (ichimokuCalc high' low' close tp kp sbp d).map (fun r => r.2.2.1.getD (i + d) none) ∧
      (ichimokuCalc high low close tp kp sbp d).map (fun r => r.2.2.2.1.getD (i + d) none) =
        (ichimokuCalc high' low' close tp kp sbp d).map (fun r => r.2.2.2.1.getD (i + d) none)) := by
  constructor
  · intro high low close close' tp kp sbp d hlen
    by_cases hg : d = 0 ∧ close.length ≠ 0
    · have hg' : d = 0 ∧ close'.length ≠ 0 := by rw [← hlen]; exact hg
      have h1 : ichimokuCalc high low close tp kp sbp d = none := by
        unfold ichimokuCalc; rw [if_pos hg]
      have h2 : ichimokuCalc high low close' tp kp sbp d = none := by
        unfold ichimokuCalc; rw [if_pos hg']
      rw [h1, h2]
      exact ⟨rfl, rfl⟩
    · have hng : ¬ (d = 0 ∧ close.length ≠ 0) := hg
      have hcond : d ≠ 0 ∨ close.length = 0 := by tauto
      have hcond' : d ≠ 0 ∨ close'.length = 0 := by rw [← hlen]; exact hcond
      rw [ichimokuCalc_some high low close tp kp sbp d hcond,
          ichimokuCalc_some high low close' tp kp sbp d hcond', hlen]
      exact ⟨rfl, rfl⟩
  · intro high low high' low' close tp kp sbp d i htp hkp hsbp hh hl
    by_cases hg : d = 0 ∧ close.length ≠ 0
    · have h1 : ichimokuCalc high low close tp kp sbp d = none := by
        unfold ichimokuCalc; rw [if_pos hg]
      have h2 : ichimokuCalc high' low' close tp kp sbp d = none := by
        unfold ichimokuCalc; rw [if_pos hg]
      rw [h1, h2]
      exact ⟨rfl, rfl⟩
    · have hcond : d ≠ 0 ∨ close.length = 0 := by tauto
      rw [ichimokuCalc_some high low close tp kp sbp d hcond,
          ichimokuCalc_some high' low' close tp kp sbp d hcond]
      simp only [Option.map_some']
      by_cases hin : i + d < close.length
      · constructor
        · refine congrArg some ?_
          rw [ichSpanA_getD high low _ tp kp d _ hin, ichSpanA_getD high' low' _ tp kp d _ hin]
          by_cases hc : max tp kp + d ≤ i + d + 1
          · rw [if_pos hc, if_pos hc]
            have hid : i + d - d = i := by omega
            rw [hid]
            have hA : ichMidVal (dAt high) (dAt low) tp i = ichMidVal (dAt high') (dAt low') tp i :=
              ichMidVal_congr _ _ _ _ tp i htp (by omega) hh hl
            have hB : ichMidVal (dAt high) (dAt low) kp i = ichMidVal (dAt high') (dAt low') kp i :=
              ichMidVal_congr _ _ _ _ kp i hkp (by omega) hh hl
            rw [hA, hB]
          · rw [if_neg hc, if_neg hc]
        · refine congrArg some ?_
          rw [ichSpanB_getD high low _ sbp d _ hin, ichSpanB_getD high' low' _ sbp d _ hin]
          by_cases hc : sbp + d ≤ i + d + 1
          · rw [if_pos hc, if_pos hc]
            have hid : i + d - d = i := by omega
            rw [hid]
            have hB : ichMidVal (dAt high) (dAt low) sbp i = ichMidVal (dAt high') (dAt low') sbp i :=
              ichMidVal_congr _ _ _ _ sbp i hsbp (by omega) hh hl
            rw [hB]
          · rw [if_neg hc, if_neg hc]
      · have hA1 : (ichSpanA high low close.length tp kp d).getD (i + d) none = none :=
          List.getD_eq_default _ _ (by rw [ichSpanA_length]; omega)
        have hA2 : (ichSpanA high' low' close.length tp kp d).getD (i + d) none = none :=
          List.getD_eq_default _ _ (by rw [ichSpanA_length]; omega)
        have hB1 : (ichSpanB high low close.length sbp d).getD (i + d) none = none :=
          List.getD_eq_default _ _ (by rw [ichSpanB_length]; omega)
        have hB2 : (ichSpanB high' low' close.length sbp d).getD (i + d) none = none :=
          List.getD_eq_default _ _ (by rw [ichSpanB_length]; omega)
        rw [hA1, hA2, hB1, hB2]
        exact ⟨rfl, rfl⟩

/-- Witness for C9: same highs/lows, two different close series of equal
length; and agreement of highs/lows up to index 0 for the locality part. -/
theorem claim9_witness :
    ((ichimokuCalc [1, 2] [1, 2] [5, 6] 1 1 1 1).map (fun r => r.2.2.1) =
      (ichimokuCalc [1, 2] [1, 2] [7, 8] 1 1 1 1).map (fun r => r.2.2.1) ∧
     (ichimokuCalc [1, 2] [1, 2] [5, 6] 1 1 1 1).map (fun r => r.2.2.2.1) =
      (ichimokuCalc [1, 2] [1, 2] [7, 8] 1 1 1 1).map (fun r => r.2.2.2.1)) ∧
    ((ichimokuCalc [1, 2] [1, 2] [5, 6] 1 1 1 1).map (fun r => r.2.2.1.getD (0 + 1) none) =
      (ichimokuCalc [1, 9] [1, 9] [5, 6] 1 1 1 1).map (fun r => r.2.2.1.getD (0 + 1) none) ∧
     (ichimokuCalc [1, 2] [1, 2] [5, 6] 1 1 1 1).map (fun r => r.2.2.2.1.getD (0 + 1) none) =
      (ichimokuCalc [1, 9] [1, 9] [5, 6] 1 1 1 1).map (fun r => r.2.2.2.1.getD (0 + 1) none)) :=
  ⟨claim9_span_noninterference.1 [1, 2] [1, 2] [5, 6] [7, 8] 1 1 1 1 rfl,
   claim9_span_noninterference.2 [1, 2] [1, 9] [1, 2] [1, 9] [5, 6] 1 1 1 1 0
     (by decide) (by decide) (by decide)
     (fun j hj => by simp [Nat.le_zero.mp hj])
     (fun j hj => by simp [Nat.le_zero.mp hj])⟩

/-! ### Wrapper reduction lemmas (claims C4, C10) -/

lemma validateInput_ok (data : List ℚ) (h : data ≠ []) : validateInput data = .ok data := by
  unfold validateInput
  rw [if_neg]
  simp [h]

@[simp] lemma exOk_bind {α β : Type} (a : α) (f : α → Except Err β) :
    (Except.ok a : Except Err α) >>= f = f a := rfl

@[simp] lemma exErr_bind {α β : Type} (e : Err) (f : α → Except Err β) :
    (Except.error e : Except Err α) >>= f = Except.error e := rfl

lemma align3_close_length (high low close : List ℚ) :
    (align3 high low close).2.2.length = min high.length (min low.length close.length) := by
  simp [align3]

/-- Claim C10 —
Ichimoku's `displacement` is never validated and the kernel is only total
for `displacement >= 1`: with `displacement = 0` on a nonempty aligned
series the Chikou slice assignment pairs a length-`n` destination with an
empty source, so the call fails (an uncaught broadcast error, not a
parameter error) instead of returning the unshifted close series; for
every `displacement >= 1` the kernel returns a result. -/
theorem claim10_displacement_zero :
    (∀ (high low close : List ℚ) (tp kp sbp : ℕ), close.length ≠ 0 →
      ichimokuCalc high low close tp kp sbp 0 = none) ∧
    (∀ (high low close : List ℚ) (tp kp sbp d : ℕ), 1 ≤ d →
      ∃ r, ichimokuCalc high low close tp kp sbp d = some r) ∧
    (∀ (high low close : List ℚ) (tp kp sbp : ℤ),
      high ≠ [] → low ≠ [] → close ≠ [] → 0 < tp → 0 < kp → 0 < sbp →
      ichimokuCalculate high low close tp kp sbp 0 = .error .runtimeBroadcast) := by
  refine ⟨?_, ?_, ?_⟩
  · intro high low close tp kp sbp h
    exact ichimokuCalc_d0 high low close tp kp sbp h
  · intro high low close tp kp sbp d hd
    exact ⟨_, ichimokuCalc_some high low close tp kp sbp d (by omega)⟩
  · intro high low close tp kp sbp hh hl hc htp hkp hsbp
    have hca : (align3 high low close).2.2.length ≠ 0 := by
      rw [align3_close_length]
      have h1 : 0 < high.length := List.length_pos.mpr hh
      have h2 : 0 < low.length := List.length_pos.mpr hl
      have h3 : 0 < close.length := List.length_pos.mpr hc
      omega
    unfold ichimokuCalculate
    rw [validateInput_ok high hh, validateInput_ok low hl, validateInput_ok close hc]
    simp only [exOk_bind]
    rw [if_neg (by omega)]
    rw [ichimokuCalc_d0 _ _ _ _ _ _ hca]

/-- Witness for C10 on a nonempty one-bar series. -/
theorem claim10_witness :
    ichimokuCalc [1] [1] [1] 1 1 1 0 = none ∧
    (∃ r, ichimokuCalc [1] [1] [1] 1 1 1 1 = some r) ∧
    ichimokuCalculate [1] [1] [1] 1 1 1 0 = .error .runtimeBroadcast :=
  ⟨claim10_displacement_zero.1 [1] [1] [1] 1 1 1 (by decide),
   claim10_displacement_zero.2.1 [1] [1] [1] 1 1 1 1 (by decide),
   claim10_displacement_zero.2.2 [1] [1] [1] 1 1 1 (by decide) (by decide) (by decide)
     (by decide) (by decide) (by decide)⟩

/-- Claim C4, amended —
`validate_period` (modelled from the spec, `base.py` being absent from the
sources) rejects `period <= 0` and `period > series_length`, and every
kernel that calls it (SMA, EMA, WMA, DEMA, TEMA, HMA, ZLEMA, T3, VWMA,
ALMA, KAMA, FRAMA, Supertrend) therefore fails with the parameter error
before any computation; Ichimoku, however, checks its three periods for
POSITIVITY only: it rejects zero/negative periods but ACCEPTS periods
greater than the aligned input length (returning warm-up-only outputs)
rather than rejecting them. -/
theorem claim4_period_validation :
    (∀ (p : ℤ) (n : ℕ), (p ≤ 0 ∨ (n : ℤ) < p) →
      validatePeriod p n = .error .invalidParameter) ∧
    (∀ (data : List ℚ) (p : ℤ), data ≠ [] → (p ≤ 0 ∨ (data.length : ℤ) < p) →
      smaCalculate data p = .error .invalidParameter) ∧
    (∀ (data : List ℚ) (p : ℤ), data ≠ [] → (p ≤ 0 ∨ (data.length : ℤ) < p) →
      emaCalculate data p = .error .invalidParameter) ∧
    (∀ (data : List ℚ) (p : ℤ), data ≠ [] → (p ≤ 0 ∨ (data.length : ℤ) < p) →
      wmaCalculate data p = .error .invalidParameter) ∧
    (∀ (data : List ℚ) (p : ℤ), data ≠ [] → (p ≤ 0 ∨ (data.length : ℤ) < p) →
      demaCalculate data p = .error .invalidParameter) ∧
    (∀ (data : List ℚ) (p : ℤ), data ≠ [] → (p ≤ 0 ∨ (data.length : ℤ) < p) →
      temaCalculate data p = .error .invalidParameter) ∧
    (∀ (data : List ℚ) (p : ℤ), data ≠ [] → (p ≤ 0 ∨ (data.length : ℤ) < p) →
      hmaCalculate data p = .error .invalidParameter) ∧
    (∀ (data : List ℚ) (p : ℤ), data ≠ [] → (p ≤ 0 ∨ (data.length : ℤ) < p) →
      zlemaCalculate data p = .error .invalidParameter) ∧
    (∀ (data : List ℚ) (p : ℤ) (v : ℚ), data ≠ [] → (p ≤ 0 ∨ (data.length : ℤ) < p) →
      t3Calculate data p v = .error .invalidParameter) ∧
    (∀ (data volume : List ℚ) (p : ℤ), data ≠ [] → volume ≠ [] →
      (p ≤ 0 ∨ ((min data.length volume.length : ℕ) : ℤ) < p) →
      vwmaCalculate data volume p = .error .invalidParameter) ∧
    (∀ (expf : ℚ → ℚ) (data : List ℚ) (p : ℤ) (offset sigma : ℚ), data ≠ [] →
      (p ≤ 0 ∨ (data.length : ℤ) < p) →
      almaCalculate expf data p offset sigma = .error .invalidParameter) ∧
    (∀ (data : List ℚ) (p fp sp : ℤ), data ≠ [] → (p ≤ 0 ∨ (data.length : ℤ) < p) →
      kamaCalculate data p fp sp = .error .invalidParameter) ∧
    (∀ (logf : ℚ → ℚ) (data : List ℚ) (p : ℤ), data ≠ [] → (p ≤ 0 ∨ (data.length : ℤ) < p) →
      framaCalculate logf data p = .error .invalidParameter) ∧
    (∀ (high low close : List ℚ) (p : ℤ) (m : ℚ), high ≠ [] → low ≠ [] → close ≠ [] →
      (p ≤ 0 ∨ ((min high.length (min low.length close.length) : ℕ) : ℤ) < p) →
      supertrendCalculate high low close p m = .error .invalidParameter) ∧
    (∀ (high low close : List ℚ) (tp kp sbp : ℤ) (d : ℕ), high ≠ [] → low ≠ [] → close ≠ [] →
      (tp ≤ 0 ∨ kp ≤ 0 ∨ sbp ≤ 0) →
      ichimokuCalculate high low close tp kp sbp d = .error .invalidParameter) ∧
    (∀ (high low close : List ℚ) (tp kp sbp : ℤ) (d : ℕ), high ≠ [] → low ≠ [] → close ≠ [] →
      0 < tp → 0 < kp → 0 < sbp → 1 ≤ d →
      ∃ r, ichimokuCalculate high low close tp kp sbp d = .ok r) := by
  have hvp : ∀ (p : ℤ) (n : ℕ), (p ≤ 0 ∨ (n : ℤ) < p) →
      validatePeriod p n = .error .invalidParameter := by
    intro p n h
    unfold validatePeriod
    rw [if_pos h]
  refine ⟨hvp, ?_, ?_, ?_, ?_, ?_, ?_, ?_, ?_, ?_, ?_, ?_, ?_, ?_, ?_, ?_⟩
  · intro data p hne h
    unfold smaCalculate
    rw [validateInput_ok data hne]
    simp only [exOk_bind]
    rw [hvp p data.length h]
    rfl
  · intro data p hne h
    unfold emaCalculate
    rw [validateInput_ok data hne]
    simp only [exOk_bind]
    rw [hvp p data.length h]
    rfl
  · intro data p hne h
    unfold wmaCalculate
    rw [validateInput_ok data hne]
    simp only [exOk_bind]
    rw [hvp p data.length h]
    rfl
  · intro data p hne h
    unfold demaCalculate
    rw [validateInput_ok data hne]
    simp only [exOk_bind]
    rw [hvp p data.length h]
    rfl
  · intro data p hne h
    unfold temaCalculate
    rw [validateInput_ok data hne]
    simp only [exOk_bind]
    rw [hvp p data.length h]
    rfl
  · intro data p hne h
    unfold hmaCalculate
    rw [validateInput_ok data hne]
    simp only [exOk_bind]
    rw [hvp p data.length h]
    rfl
  · intro data p hne h
    unfold zlemaCalculate
    rw [validateInput_ok data hne]
    simp only [exOk_bind]
    rw [hvp p data.length h]
    rfl
  · intro data p v hne h
    unfold t3Calculate
    rw [validateInput_ok data hne]
    simp only [exOk_bind]
    rw [hvp p data.length h]
    rfl
  · intro data volume p hne hnev h
    unfold vwmaCalculate
    rw [validateInput_ok data hne, validateInput_ok volume hnev]
    simp only [exOk_bind]
    have hlen : (align2 data volume).1.length = min data.length volume.length := by
      simp [align2]
    simp only [align2]
    rw [hvp p _ (by simpa using h)]
    rfl
  · intro expf data p offset sigma hne h
    unfold almaCalculate
    rw [validateInput_ok data hne]
    simp only [exOk_bind]
    rw [hvp p data.length h]
    rfl
  · intro data p fp sp hne h
    unfold kamaCalculate
    rw [validateInput_ok data hne]
    simp only [exOk_bind]
    rw [hvp p data.length h]
    rfl
  · intro logf data p hne h
    unfold framaCalculate
    rw [validateInput_ok data hne]
    simp only [exOk_bind]
    rw [hvp p data.length h]
    rfl
  · intro high low close p m hh hl hc h
    unfold supertrendCalculate
    rw [validateInput_ok high hh, validateInput_ok low hl, validateInput_ok close hc]
    simp only [exOk_bind, align3]
    rw [hvp p _ (by simpa using h)]
    rfl
  · intro high low close tp kp sbp d hh hl hc h
    unfold ichimokuCalculate
    rw [validateInput_ok high hh, validateInput_ok low hl, validateInput_ok close hc]
    simp only [exOk_bind]
    rw [if_pos h]
  · intro high low close tp kp sbp d hh hl hc htp hkp hsbp hd
    unfold ichimokuCalculate
    rw [validateInput_ok high hh, validateInput_ok low hl, validateInput_ok close hc]
    simp only [exOk_bind]
    rw [if_neg (by omega)]
    rw [ichimokuCalc_some _ _ _ _ _ _ _ (by omega)]
    exact ⟨_, rfl⟩

/-- Counterexample to C4 as stated: `tenkan_period = 5` exceeds the aligned
input length 2, yet `Ichimoku.calculate` succeeds (it only checks the
periods for positivity) instead of rejecting before computation. -/
theorem claim4_counterexample :
    (([1, 2] : List ℚ).length : ℤ) < 5 ∧
    ∃ r, ichimokuCalculate [1, 2] [1, 2] [1, 2] 5 1 1 1 = .ok r := by
  refine ⟨by decide, ?_⟩
  unfold ichimokuCalculate
  rw [validateInput_ok [1, 2] (by decide)]
  simp only [exOk_bind]
  rw [if_neg (by decide)]
  rw [ichimokuCalc_some _ _ _ _ _ _ _ (by omega)]
  exact ⟨_, rfl⟩

/-- Witness for the amended C4: `validate_period` and SMA reject
`period = 0`, and Ichimoku accepts valid positive periods. -/
theorem claim4_witness :
    validatePeriod 0 3 = .error .invalidParameter ∧
    smaCalculate [1] 0 = .error .invalidParameter ∧
    (∃ r, ichimokuCalculate [1] [1] [1] 1 1 1 1 = .ok r) :=
  ⟨claim4_period_validation.1 0 3 (Or.inl (by decide)),
   claim4_period_validation.2.1 [1] 0 (by decide) (Or.inl (by decide)),
   claim4_period_validation.2.2.2.2.2.2.2.2.2.2.2.2.2.2.2 [1] [1] [1] 1 1 1 1
     (by decide) (by decide) (by decide) (by decide) (by decide) (by decide) (by decide)⟩

/-! ### T3 refinement (claim C7).  The two definitions below restate the
spec's wording of section 4.3 (`GD(x,p,v) = (1+v)*EMA1(x) - v*EMA2(EMA1(x))`
with both smoothings seeded by the first sample of their input); the claim
compares the source kernel against them. -/

/-- The spec's raw first-sample-seeded exponential smoothing of a series,
as a buffer: `EMA(x)` with `e[0] = x[0]`. -/
def emaRawList (p : ℕ) (x : List ℚ) : List ℚ :=
  (List.range x.length).map (t3EmaFun (2 / ((p : ℚ) + 1)) (dAt x))

/-- The spec's generalized DEMA:
`(1+v)*EMA1(x) - v*EMA2(EMA1(x))`, with `EMA2` run over the buffer
produced by `EMA1`. -/
def gdSpec (p : ℕ) (v : ℚ) (x : List ℚ) : List ℚ :=
  (List.range x.length).map fun i =>
    (1 + v) * dAt (emaRawList p x) i - v * dAt (emaRawList p (emaRawList p x)) i

lemma t3EmaFun_congr (a : ℚ) (x y : ℕ → ℚ) : ∀ i, (∀ j, j ≤ i → x j = y j) →
    t3EmaFun a x i = t3EmaFun a y i := by
  intro i
  induction i with
  | zero => intro h; simp [t3EmaFun, h 0 (le_refl 0)]
  | succ k ih =>
    intro h
    simp only [t3EmaFun]
    rw [h (k + 1) (le_refl _), ih (fun j hj => h j (by omega))]

lemma emaRawList_dAt (p : ℕ) (x : List ℚ) (i : ℕ) (hi : i < x.length) :
    dAt (emaRawList p x) i = t3EmaFun (2 / ((p : ℚ) + 1)) (dAt x) i := by
  unfold emaRawList dAt
  exact rangeMap_getD _ _ _ _ hi

lemma gdCalc_eq_gdSpec (data : List ℚ) (p : ℕ) (v : ℚ) :
    gdCalc data p v = gdSpec p v data := by
  unfold gdCalc gdSpec
  refine List.map_congr_left ?_
  intro i hi
  have hin : i < data.length := List.mem_range.mp hi
  have he1 : dAt (emaRawList p data) i = t3EmaFun (2 / ((p : ℚ) + 1)) (dAt data) i :=
    emaRawList_dAt p data i hin
  have he2 : dAt (emaRawList p (emaRawList p data)) i =
      t3EmaFun (2 / ((p : ℚ) + 1)) (t3EmaFun (2 / ((p : ℚ) + 1)) (dAt data)) i := by
    have hlen : (emaRawList p data).length = data.length := by simp [emaRawList]
    rw [emaRawList_dAt p (emaRawList p data) i (by omega)]
    exact t3EmaFun_congr _ _ _ i fun j hj => emaRawList_dAt p data j (by omega)
  rw [he1, he2]

/-- Claim C7 —
T3 is exactly three nested applications of the generalized-DEMA helper
`GD(x,p,v) = (1+v)*EMA1(x) - v*EMA2(EMA1(x))`, whose two internal
exponential smoothings use `alpha = 2/(period+1)` but are seeded with the
FIRST SAMPLE of their respective inputs (`e[0] = x[0]`) — a genuinely
different recurrence from the SMA-seeded section-4.2 EMA kernel, as the
final disagreement at index 0 shows. -/
theorem claim7_t3_gd :
    (∀ (data : List ℚ) (p : ℕ) (v : ℚ),
      t3Calc data p v = gdSpec p v (gdSpec p v (gdSpec p v data))) ∧
    some (dAt (emaRawList 2 [1, 2]) 0) ≠ (emaCalc (([1, 2] : List ℚ).map some) 2).getD 0 none := by
  constructor
  · intro data p v
    unfold t3Calc
    rw [gdCalc_eq_gdSpec, gdCalc_eq_gdSpec, gdCalc_eq_gdSpec]
  · have hright : (emaCalc (([1, 2] : List ℚ).map some) 2).getD 0 none = none :=
      emaCalc_getD_none _ 2 0 (by simp) (by omega)
    rw [hright]
    simp
